import Mathlib

/-!
# Verification of the rfb-poc synthetic-data generation pipeline

Shallow embedding of the generation core of the repository:

* `src/src/generators/components.py` (`DataComponent`, `FraudScenarioGenerator`)
* `src/src/generators/employment_generator.py` (`EmploymentDataGenerator`)
* `src/src/generators/investment_generator.py` (`InvestmentDataGenerator`)
* `src/src/controllers/employment_generator.py` (`EmploymentGenerator`)
* `src/src/controllers/investment_generator.py` (`InvestmentGenerator.validate`)
* `src/src/validation/validation_framework.py` (`DataFrameValidationStrategy`)

Numbers are modelled as rationals (`ℚ`).  Every random draw is taken from an
abstract stream of rationals; a call to the underlying pseudo-random
generator maps the current stream element to the unit interval `[0, 1)`
(numpy's `random`/`uniform` draws are half-open) and advances the stream.
Theorems quantify over all streams, so they hold for every possible
sequence of pseudo-random draws.
-/

namespace RfbPoc

/-- `round(x, d)` of Python/numpy, on rationals: round `x` to `d` decimal
digits.  (Ties are resolved by Mathlib's `round`; no theorem below depends
on the direction ties take.) -/
def roundTo (d : ℕ) (x : ℚ) : ℚ := (round (x * (10 : ℚ) ^ d) : ℤ) / (10 : ℚ) ^ d

/-- `np.isclose(a, b, atol=atol)` with numpy's default relative tolerance
`rtol = 1e-5`: `|a - b| <= atol + rtol * |b|`. -/
def npIsClose (atol : ℚ) (a b : ℚ) : Bool := |a - b| ≤ atol + (1 / 100000) * |b|

/-- Abstract stream of pseudo-random source values: an infinite sequence of
rationals together with a cursor. -/
structure Rng where
  f : ℕ → ℚ
  k : ℕ

/-- One draw in `[0, 1)`: the fractional part of the current stream element
(so every value of `[0, 1)` is reachable and no validity hypothesis on the
stream is needed), advancing the cursor. -/
def Rng.next (g : Rng) : ℚ × Rng := (g.f g.k - ⌊g.f g.k⌋, ⟨g.f, g.k + 1⟩)

/-- `np.random.uniform(lo, hi)`: a draw in `[lo, hi)` (equal to `lo` when
`hi = lo`). -/
def Rng.uniform (g : Rng) (lo hi : ℚ) : ℚ × Rng :=
  let (u, g1) := g.next
  (lo + u * (hi - lo), g1)

/-- `np.random.normal(mu, sigma)`: modelled as `mu + sigma * z` where `z` is
the raw (unconstrained) current stream element. -/
def Rng.normal (g : Rng) (mu sigma : ℚ) : ℚ × Rng :=
  (mu + sigma * g.f g.k, ⟨g.f, g.k + 1⟩)

/-- Categorical selection: walk the `(item, probability)` list and return the
first item whose cumulative probability exceeds the unit draw (numpy's
`choice(items, p=probs)`).  Falls back to `dflt` when the draw exceeds the
total mass. -/
def pickCum {α : Type} (dflt : α) : List (α × ℚ) → ℚ → α
  | [], _ => dflt
  | (a, p) :: rest, u => if u < p then a else pickCum dflt rest (u - p)

/-- `rng.choice(items, p=probs)`: one categorical draw. -/
def Rng.choice {α : Type} (g : Rng) (items : List (α × ℚ)) (dflt : α) : α × Rng :=
  let (u, g1) := g.next
  (pickCum dflt items u, g1)

/-- `rng.choice(items)` with uniform probabilities: index `⌊u·n⌋`. -/
def Rng.choiceUniform {α : Type} (g : Rng) (items : List α) (dflt : α) : α × Rng :=
  let (u, g1) := g.next
  (items.getD (⌊u * items.length⌋).toNat dflt, g1)

/-! ## The allocation sampler

`InvestmentDataGenerator._generate_allocation`
(`src/src/generators/investment_generator.py`, lines 190-244).

An asset category is `(name, (min_alloc, max_alloc))`.  The sampler walks the
category list in order; every category except the last draws uniformly from
`[min_alloc, min(max_alloc, remaining - Σ later minimums)]`, the last takes
the exact remainder.  The *stored* value of each category is its draw rounded
to 4 decimals, while `remaining` is decremented by the unrounded draw — the
embedding collects the unrounded draws and applies the rounding afterwards,
which yields the same stored values.  Category names in the repository's
configurations are pairwise distinct, so the source's name-based test for the
last asset and its `assets.index`-based suffix computation coincide with the
positional recursion used here. -/

/-- An asset category: name, minimum and maximum allocation. -/
abbrev Asset := String × ℚ × ℚ

/-- `ATOL = 1e-4` of `_generate_allocation`. -/
def ATOL : ℚ := 1 / 10000

/-- The assignment loop of one attempt: returns the unrounded draw for each
category (`none` = the `"Cannot satisfy minimum allocation"` abort), plus the
stream as advanced so far. -/
def allocAssign : List Asset → ℚ → Rng → Option (List (String × ℚ)) × Rng
  | [], _, g => (some [], g)
  | (n, lo, hi) :: rest, remaining, g =>
    match rest with
    | [] => (some [(n, remaining)], g)
    | _ :: _ =>
      let restMin := (rest.map fun a => a.2.1).sum
      let maxP := min hi (remaining - restMin)
      if maxP < lo then (none, g)
      else
        let (a, g1) := g.uniform lo maxP
        match allocAssign rest (remaining - a) g1 with
        | (some l, g2) => (some ((n, a) :: l), g2)
        | (none, g2) => (none, g2)

/-- The post-loop bounds verification: every stored value within
`[min - ATOL, max + ATOL]`. -/
def boundsOk (assets : List Asset) (stored : List (String × ℚ)) : Bool :=
  (assets.zip stored).all fun p => decide (p.1.2.1 - ATOL ≤ p.2.2) && decide (p.2.2 ≤ p.1.2.2 + ATOL)

/-- Sum of the stored allocation values. -/
def sumAlloc (l : List (String × ℚ)) : ℚ := (l.map Prod.snd).sum

/-- Index of the first maximal element (Python's `max(..., key=...)` over the
allocation dict, whose iteration order is the category order). -/
def argmaxIdx : List ℚ → ℕ
  | [] => 0
  | x :: rest =>
    let j := argmaxIdx rest
    if rest ≠ [] ∧ x < rest.getD j 0 then j + 1 else 0

/-- Replace the `j`-th stored value `v` by `round(v + delta, 4)` (the
numerical-stabilization step). -/
def adjustAt : List (String × ℚ) → ℕ → ℚ → List (String × ℚ)
  | [], _, _ => []
  | (n, v) :: rest, 0, delta => (n, roundTo 4 (v + delta)) :: rest
  | p :: rest, j + 1, delta => p :: adjustAt rest j delta

/-- One attempt of `_generate_allocation`: assignment loop, rounding, bounds
verification, stabilization of the largest value when the total misses 1.0,
final verification. -/
def allocAttempt (assets : List Asset) (g : Rng) : Option (List (String × ℚ)) × Rng :=
  match allocAssign assets 1 g with
  | (none, g1) => (none, g1)
  | (some raws, g1) =>
    let stored := raws.map fun p => (p.1, roundTo 4 p.2)
    if boundsOk assets stored then
      let total := sumAlloc stored
      let stored2 := if npIsClose ATOL total 1 then stored
                     else adjustAt stored (argmaxIdx (stored.map Prod.snd)) (1 - total)
      if npIsClose ATOL (sumAlloc stored2) 1 then (some stored2, g1) else (none, g1)
    else (none, g1)

/-- The retry loop (`MAX_ATTEMPTS = 10`): a failed attempt keeps the stream
position it reached and retries. -/
def allocRetry : ℕ → List Asset → Rng → Option (List (String × ℚ)) × Rng
  | 0, _, g => (none, g)
  | n + 1, assets, g =>
    match allocAttempt assets g with
    | (some l, g1) => (some l, g1)
    | (none, g1) => allocRetry n assets g1

/-- `_generate_allocation`: up to 10 attempts, then the allocation-failure
error (`none`; the source raises
`ValueError("Failed to generate valid asset allocation")`, the spec's
`AllocationError`). -/
def generateAllocation (assets : List Asset) (g : Rng) : Option (List (String × ℚ)) × Rng :=
  allocRetry 10 assets g

/-- The asset categories of the investment generator, in iteration order,
with the configured `[min, max]` ranges (`test_settings.asset_allocation`
defaults in `src/src/generators/investment_generator.py` lines 43-49, equal
to the hard-coded `asset_classes` of
`src/src/controllers/investment_generator.py` lines 32-37). -/
def assetClasses : List Asset :=
  [("stocks", 2/5, 4/5), ("bonds", 1/10, 2/5), ("cash", 1/20, 1/5), ("real_estate", 0, 1/5)]

/-! ### Basic facts about the allocation sampler -/

/-- `x` is an integer multiple of `1e-4`.  All stored allocation values are:
they are produced by `round(·, 4)`. -/
def isMul4 (x : ℚ) : Prop := ∃ z : ℤ, x = z / 10000

lemma isMul4_roundTo (x : ℚ) : isMul4 (roundTo 4 x) := ⟨round (x * 10 ^ 4), by norm_num [roundTo]⟩

lemma isMul4_add {x y : ℚ} (hx : isMul4 x) (hy : isMul4 y) : isMul4 (x + y) := by
  obtain ⟨a, ha⟩ := hx
  obtain ⟨b, hb⟩ := hy
  exact ⟨a + b, by push_cast [ha, hb]; ring⟩

lemma isMul4_zero : isMul4 0 := ⟨0, by norm_num⟩

lemma isMul4_sum {l : List ℚ} (h : ∀ x ∈ l, isMul4 x) : isMul4 l.sum := by
  induction l with
  | nil => simpa using isMul4_zero
  | cons a t ih =>
    simp only [List.sum_cons]
    exact isMul4_add (h a (by simp)) (ih fun x hx => h x (by simp [hx]))

/-- A multiple of `1e-4` that passes the `np.isclose(·, 1.0, atol=1e-4)` gate
(which allows deviation up to `1.1e-4` because of numpy's default
`rtol = 1e-5`) is in fact within `1e-4` of 1. -/
lemma isMul4_close_one {x : ℚ} (hm : isMul4 x) (h : |x - 1| ≤ 11 / 100000) :
    |x - 1| ≤ 1 / 10000 := by
  obtain ⟨z, rfl⟩ := hm
  have e : (z : ℚ) / 10000 - 1 = ((z : ℚ) - 10000) / 10000 := by ring
  rw [e, abs_div, abs_of_pos (show (0 : ℚ) < 10000 by norm_num)] at h ⊢
  have h1 : |(z : ℚ) - 10000| ≤ 11 / 10 := by linarith
  have h2 : |z - 10000| ≤ 1 := by
    by_contra hc
    push_neg at hc
    have hc2 : (2 : ℤ) ≤ |z - 10000| := hc
    have : (2 : ℚ) ≤ |(z : ℚ) - 10000| := by exact_mod_cast hc2
    linarith
  have h3 : |(z : ℚ) - 10000| ≤ 1 := by exact_mod_cast h2
  linarith

lemma adjustAt_isMul4 {l : List (String × ℚ)} (hl : ∀ p ∈ l, isMul4 p.2)
    (j : ℕ) (d : ℚ) : ∀ p ∈ adjustAt l j d, isMul4 p.2 := by
  induction l generalizing j with
  | nil => simp [adjustAt]
  | cons a t ih =>
    obtain ⟨n, v⟩ := a
    have ht : ∀ p ∈ t, isMul4 p.2 := fun q hq => hl q (List.mem_cons_of_mem _ hq)
    cases j with
    | zero =>
      intro p hp
      simp only [adjustAt] at hp
      rcases List.mem_cons.mp hp with rfl | hp
      · exact isMul4_roundTo (v + d)
      · exact ht p hp
    | succ j =>
      intro p hp
      simp only [adjustAt] at hp
      rcases List.mem_cons.mp hp with rfl | hp
      · exact hl (n, v) (List.mem_cons_self _ _)
      · exact ih ht j p hp

lemma adjustAt_length (l : List (String × ℚ)) (j : ℕ) (d : ℚ) :
    (adjustAt l j d).length = l.length := by
  induction l generalizing j with
  | nil => simp [adjustAt]
  | cons a t ih =>
    obtain ⟨n, v⟩ := a
    cases j <;> simp [adjustAt, ih]

/-- Every stored value returned by one attempt is a multiple of `1e-4` and the
returned total passes the final `np.isclose` gate. -/
lemma allocAttempt_some {assets : List Asset} {g g1 : Rng} {l : List (String × ℚ)}
    (h : allocAttempt assets g = (some l, g1)) :
    (∀ p ∈ l, isMul4 p.2) ∧ npIsClose ATOL (sumAlloc l) 1 = true := by
  unfold allocAttempt at h
  rcases h1 : allocAssign assets 1 g with ⟨o, gA⟩
  rw [h1] at h
  cases o with
  | none => simp at h
  | some raws =>
    simp only at h
    set stored := raws.map fun p => (p.1, roundTo 4 p.2) with hstored
    by_cases hb : boundsOk assets stored = true
    · rw [if_pos hb] at h
      set stored2 := if npIsClose ATOL (sumAlloc stored) 1 = true then stored
                     else adjustAt stored (argmaxIdx (stored.map Prod.snd))
                       (1 - sumAlloc stored) with hs2
      by_cases hg : npIsClose ATOL (sumAlloc stored2) 1 = true
      · rw [if_pos hg] at h
        rw [Prod.mk.injEq, Option.some.injEq] at h
        obtain ⟨rfl, rfl⟩ := h
        refine ⟨?_, hg⟩
        have hbase : ∀ p ∈ stored, isMul4 p.2 := by
          intro p hp
          rw [hstored] at hp
          simp only [List.mem_map] at hp
          obtain ⟨q, _, rfl⟩ := hp
          exact isMul4_roundTo q.2
        rw [hs2]
        split
        · exact hbase
        · exact adjustAt_isMul4 hbase _ _
      · rw [if_neg hg] at h
        simp at h
    · rw [if_neg hb] at h
      simp at h

lemma allocRetry_some {n : ℕ} {assets : List Asset} {g g1 : Rng} {l : List (String × ℚ)}
    (h : allocRetry n assets g = (some l, g1)) :
    ∃ g0, allocAttempt assets g0 = (some l, g1) := by
  induction n generalizing g with
  | zero => simp [allocRetry] at h
  | succ n ih =>
    unfold allocRetry at h
    rcases h1 : allocAttempt assets g with ⟨o, gA⟩
    rw [h1] at h
    cases o with
    | some l2 =>
      simp only at h
      rw [Prod.mk.injEq, Option.some.injEq] at h
      obtain ⟨rfl, rfl⟩ := h
      exact ⟨g, h1⟩
    | none => exact ih h

/-- Any allocation returned by `_generate_allocation` has total within `1e-4`
of 1 (claim C1, sampler level). -/
lemma generateAllocation_sum {assets : List Asset} {g g1 : Rng} {l : List (String × ℚ)}
    (h : generateAllocation assets g = (some l, g1)) :
    |sumAlloc l - 1| ≤ 1 / 10000 := by
  obtain ⟨g0, h0⟩ := allocRetry_some h
  obtain ⟨hmul, hgate⟩ := allocAttempt_some h0
  have hsum : isMul4 (sumAlloc l) := by
    apply isMul4_sum
    intro x hx
    simp only [List.mem_map] at hx
    obtain ⟨p, hp, rfl⟩ := hx
    exact hmul p hp
  simp only [npIsClose, ATOL, abs_one, decide_eq_true_eq] at hgate
  exact isMul4_close_one hsum (by linarith)

/-! ### Bounds analysis of the sampler (claim C2) -/

lemma Rng.next_nonneg (g : Rng) : 0 ≤ g.next.1 := by
  have h := Int.floor_le (g.f g.k)
  simp only [Rng.next]
  linarith

lemma Rng.next_lt_one (g : Rng) : g.next.1 < 1 := by
  have h := Int.lt_floor_add_one (g.f g.k)
  simp only [Rng.next]
  linarith

/-- A uniform draw lands in `[lo, hi]` whenever `lo ≤ hi`. -/
lemma Rng.uniform_mem (g : Rng) {lo hi : ℚ} (h : lo ≤ hi) :
    lo ≤ (g.uniform lo hi).1 ∧ (g.uniform lo hi).1 ≤ hi := by
  have h0 := g.next_nonneg
  have h1 := g.next_lt_one
  have he : (g.uniform lo hi).1 = lo + g.next.1 * (hi - lo) := rfl
  rw [he]
  constructor <;> nlinarith

lemma roundTo_sub_self_abs (d : ℕ) (x : ℚ) :
    |roundTo d x - x| ≤ 1 / (2 * 10 ^ d) := by
  have h := abs_sub_round (x * 10 ^ d)
  have hp : (0 : ℚ) < 10 ^ d := by positivity
  have e : roundTo d x - x = -((x * 10 ^ d - round (x * 10 ^ d)) / 10 ^ d) := by
    unfold roundTo; field_simp; ring
  rw [e, abs_neg, abs_div, abs_of_pos hp]
  rw [div_le_div_iff₀ hp (by positivity)]
  calc |x * 10 ^ d - (round (x * 10 ^ d) : ℤ)| * (2 * 10 ^ d)
      ≤ (1 / 2) * (2 * 10 ^ d) := by
        have : (0 : ℚ) < 2 * 10 ^ d := by positivity
        exact mul_le_mul_of_nonneg_right h (le_of_lt this)
    _ = 1 * 10 ^ d := by ring

/-- `|round(x, 4) - x| ≤ 5e-5`. -/
lemma roundTo4_err (x : ℚ) : |roundTo 4 x - x| ≤ 1 / 20000 := by
  linarith [roundTo_sub_self_abs 4 x]

lemma roundTo4_isMul4_eq {x : ℚ} (h : isMul4 x) : roundTo 4 x = x := by
  obtain ⟨z, rfl⟩ := h
  unfold roundTo
  have e : (z : ℚ) / 10000 * 10 ^ 4 = (z : ℚ) := by norm_num
  rw [e, round_intCast]
  norm_num

lemma isMul4_one : isMul4 1 := ⟨10000, by norm_num⟩

lemma isMul4_neg {x : ℚ} (h : isMul4 x) : isMul4 (-x) := by
  obtain ⟨z, rfl⟩ := h
  exact ⟨-z, by push_cast; ring⟩

lemma isMul4_sub {x y : ℚ} (hx : isMul4 x) (hy : isMul4 y) : isMul4 (x - y) := by
  simpa [sub_eq_add_neg] using isMul4_add hx (isMul4_neg hy)

/-- Two multiples of `1e-4` that are strictly ordered differ by at least
`1e-4`. -/
lemma isMul4_step {a b : ℚ} (ha : isMul4 a) (hb : isMul4 b) (h : b < a) :
    b + 1 / 10000 ≤ a := by
  obtain ⟨x, rfl⟩ := ha
  obtain ⟨y, rfl⟩ := hb
  have h1 : (y : ℚ) < x := by linarith
  have h2 : y < x := by exact_mod_cast h1
  have h3 : y + 1 ≤ x := h2
  have h4 : ((y : ℚ) + 1) ≤ (x : ℚ) := by exact_mod_cast h3
  linarith

/-- Unfolding of the assignment loop on a list with at least two
categories. -/
lemma allocAssign_cons_cons (n : String) (lo hi : ℚ) (b : Asset) (rest : List Asset)
    (r : ℚ) (g : Rng) :
    allocAssign ((n, lo, hi) :: b :: rest) r g =
      (if min hi (r - ((b :: rest).map fun a => a.2.1).sum) < lo then (none, g)
       else
         let p := g.uniform lo (min hi (r - ((b :: rest).map fun a => a.2.1).sum))
         match allocAssign (b :: rest) (r - p.1) p.2 with
         | (some l, g2) => (some ((n, p.1) :: l), g2)
         | (none, g2) => (none, g2)) := rfl

lemma allocAssign_single (n : String) (lo hi : ℚ) (r : ℚ) (g : Rng) :
    allocAssign [(n, lo, hi)] r g = (some [(n, r)], g) := rfl

/-- Structure of a successful assignment loop: names follow the category
list, the unrounded draws sum to exactly the initial `remaining`, and every
category except the last draws inside its own `[min, max]` range. -/
lemma allocAssign_ok {assets : List Asset} (hne : assets ≠ []) {r : ℚ} {g g1 : Rng}
    {l : List (String × ℚ)} (h : allocAssign assets r g = (some l, g1)) :
    l.map Prod.fst = assets.map Prod.fst ∧ (l.map Prod.snd).sum = r ∧
      ∀ i, i + 1 < assets.length →
        (assets.getD i ("", 0, 0)).2.1 ≤ (l.getD i ("", 0)).2 ∧
        (l.getD i ("", 0)).2 ≤ (assets.getD i ("", 0, 0)).2.2 := by
  induction assets generalizing r g l g1 with
  | nil => exact absurd rfl hne
  | cons a rest ih =>
    obtain ⟨n, lo, hi⟩ := a
    cases rest with
    | nil =>
      rw [allocAssign_single] at h
      rw [Prod.mk.injEq, Option.some.injEq] at h
      obtain ⟨rfl, rfl⟩ := h
      simp
    | cons b rest2 =>
      rw [allocAssign_cons_cons] at h
      by_cases hguard : min hi (r - ((b :: rest2).map fun a => a.2.1).sum) < lo
      · rw [if_pos hguard] at h
        simp at h
      · rw [if_neg hguard] at h
        simp only at h
        rcases h2 : allocAssign (b :: rest2)
            (r - (g.uniform lo (min hi (r - ((b :: rest2).map fun a => a.2.1).sum))).1)
            (g.uniform lo (min hi (r - ((b :: rest2).map fun a => a.2.1).sum))).2
          with ⟨o, gB⟩
        rw [h2] at h
        cases o with
        | none => simp at h
        | some tl =>
          simp only at h
          rw [Prod.mk.injEq, Option.some.injEq] at h
          obtain ⟨rfl, rfl⟩ := h
          obtain ⟨ihn, ihs, ihb⟩ := ih (by simp) h2
          push_neg at hguard
          have hdraw := g.uniform_mem hguard
          refine ⟨by simpa using ihn, ?_, ?_⟩
          · simp only [List.map_cons, List.sum_cons, ihs]
            ring
          · intro i hi2
            cases i with
            | zero =>
              refine ⟨hdraw.1, le_trans hdraw.2 (min_le_left _ _)⟩
            | succ i =>
              simpa using ihb i (by simpa using hi2)

/-- First-maximum index: it is in range (for nonempty lists) and dominates
every element. -/
lemma argmaxIdx_lt {l : List ℚ} (h : l ≠ []) : argmaxIdx l < l.length := by
  induction l with
  | nil => simp at h
  | cons x rest ih =>
    by_cases hr : rest = []
    · subst hr; simp [argmaxIdx]
    · simp only [argmaxIdx]
      split
      · simpa using ih hr
      · simp

lemma argmaxIdx_max {l : List ℚ} : ∀ i, i < l.length → l.getD i 0 ≤ l.getD (argmaxIdx l) 0 := by
  induction l with
  | nil => simp
  | cons x rest ih =>
    intro i hlen
    by_cases hr : rest = []
    · subst hr
      simp only [List.length_cons, List.length_nil] at hlen
      have hi0 : i = 0 := by omega
      subst hi0
      simp [argmaxIdx]
    · simp only [argmaxIdx]
      by_cases hlt : x < rest.getD (argmaxIdx rest) 0
      · rw [if_pos ⟨hr, hlt⟩]
        cases i with
        | zero => simpa using le_of_lt hlt
        | succ i => simpa using ih i (by simpa using hlen)
      · have hge : rest.getD (argmaxIdx rest) 0 ≤ x := le_of_not_lt hlt
        rw [if_neg fun hc => hlt hc.2]
        cases i with
        | zero => simp
        | succ i =>
          simp only [List.getD_cons_succ, List.getD_cons_zero]
          exact le_trans (ih i (by simpa using hlen)) hge

/-- A nonzero multiple of `1e-4` of magnitude above the `isclose` gate
(`1.1e-4`) but at most `2e-4` has magnitude exactly `2e-4`. -/
lemma isMul4_between {x : ℚ} (hm : isMul4 x) (h1 : 11 / 100000 < |x|)
    (h2 : |x| ≤ 1 / 5000) : |x| = 1 / 5000 := by
  obtain ⟨z, rfl⟩ := hm
  have e : |(z : ℚ) / 10000| = |(z : ℚ)| / 10000 := by
    rw [abs_div, abs_of_pos (show (0 : ℚ) < 10000 by norm_num)]
  rw [e] at h1 h2 ⊢
  have hz1 : (11 / 10 : ℚ) < |(z : ℚ)| := by linarith
  have hz2 : |(z : ℚ)| ≤ 2 := by linarith
  have hzi1 : (1 : ℤ) < |z| := by
    by_contra hc
    push_neg at hc
    have : ((|z| : ℤ) : ℚ) ≤ 1 := by exact_mod_cast hc
    have habs : |(z : ℚ)| = ((|z| : ℤ) : ℚ) := by push_cast; rfl
    rw [habs] at hz1
    linarith
  have hzi2 : |z| ≤ 2 := by
    by_contra hc
    push_neg at hc
    have h3 : (3 : ℤ) ≤ |z| := hc
    have : (3 : ℚ) ≤ ((|z| : ℤ) : ℚ) := by exact_mod_cast h3
    have habs : |(z : ℚ)| = ((|z| : ℤ) : ℚ) := by push_cast; rfl
    rw [habs] at hz2
    linarith
  have hz : |z| = 2 := by omega
  have : |(z : ℚ)| = 2 := by
    have habs : |(z : ℚ)| = ((|z| : ℤ) : ℚ) := by push_cast; rfl
    rw [habs, hz]; norm_num
  rw [this]; norm_num

set_option maxHeartbeats 2000000 in
/-- **Core of C2**: every allocation returned by one sampler attempt at the
configured asset classes carries the four category names in order and every
value lies within its configured `[min, max]` range up to `ATOL = 1e-4` —
also when the value was moved by the numerical-stabilization step. -/
lemma allocAttempt_classes {g g1 : Rng} {l : List (String × ℚ)}
    (h : allocAttempt assetClasses g = (some l, g1)) :
    ∃ v0 v1 v2 v3 : ℚ,
      l = [("stocks", v0), ("bonds", v1), ("cash", v2), ("real_estate", v3)] ∧
      2/5 - ATOL ≤ v0 ∧ v0 ≤ 4/5 + ATOL ∧
      1/10 - ATOL ≤ v1 ∧ v1 ≤ 2/5 + ATOL ∧
      1/20 - ATOL ≤ v2 ∧ v2 ≤ 1/5 + ATOL ∧
      0 - ATOL ≤ v3 ∧ v3 ≤ 1/5 + ATOL := by
  simp only [ATOL]
  unfold allocAttempt at h
  rcases h1 : allocAssign assetClasses 1 g with ⟨o, gA⟩
  rw [h1] at h
  cases o with
  | none => simp at h
  | some raws =>
    obtain ⟨hnames, hsum, hbnd⟩ := allocAssign_ok (by simp [assetClasses]) h1
    have hb0 := hbnd 0 (by norm_num [assetClasses])
    have hb1 := hbnd 1 (by norm_num [assetClasses])
    have hb2 := hbnd 2 (by norm_num [assetClasses])
    simp only [assetClasses, List.map_cons, List.map_nil] at hnames
    rcases raws with _ | ⟨⟨n0, r0⟩, _ | ⟨⟨n1, r1⟩, _ | ⟨⟨n2, r2⟩, _ | ⟨⟨n3, r3⟩, _ | ⟨p4, tl⟩⟩⟩⟩⟩ <;>
      simp at hnames
    obtain ⟨rfl, rfl, rfl, rfl⟩ := hnames
    simp only [assetClasses, List.getD_cons_zero, List.getD_cons_succ] at hb0 hb1 hb2
    obtain ⟨hb0a, hb0b⟩ := hb0
    obtain ⟨hb1a, hb1b⟩ := hb1
    obtain ⟨hb2a, hb2b⟩ := hb2
    have hs : r0 + r1 + r2 + r3 = 1 := by
      simp only [List.map_cons, List.map_nil, List.sum_cons, List.sum_nil] at hsum
      linarith
    simp only [List.map_cons, List.map_nil] at h
    -- the stored (rounded) values
    have he0 := roundTo4_err r0
    have he1 := roundTo4_err r1
    have he2 := roundTo4_err r2
    have he3 := roundTo4_err r3
    have hm0 := isMul4_roundTo r0
    have hm1 := isMul4_roundTo r1
    have hm2 := isMul4_roundTo r2
    have hm3 := isMul4_roundTo r3
    set v0 := roundTo 4 r0 with hv0
    set v1 := roundTo 4 r1 with hv1
    set v2 := roundTo 4 r2 with hv2
    set v3 := roundTo 4 r3 with hv3
    by_cases hbok : boundsOk assetClasses
        [("stocks", v0), ("bonds", v1), ("cash", v2), ("real_estate", v3)] = true
    · rw [if_pos hbok] at h
      have hbnds := hbok
      simp only [boundsOk, assetClasses, ATOL, List.zip_cons_cons, List.zip_nil_right,
        List.all_cons, List.all_nil, Bool.and_eq_true, decide_eq_true_eq, and_true] at hbnds
      obtain ⟨⟨hb0L, hb0R⟩, ⟨hb1L, hb1R⟩, ⟨hb2L, hb2R⟩, hb3L, hb3R⟩ := hbnds
      have htot : sumAlloc [("stocks", v0), ("bonds", v1), ("cash", v2), ("real_estate", v3)]
          = v0 + v1 + v2 + v3 := by
        simp [sumAlloc]
        ring
      by_cases hg : npIsClose ATOL
          (sumAlloc [("stocks", v0), ("bonds", v1), ("cash", v2), ("real_estate", v3)]) 1 = true
      · -- no stabilization needed
        rw [if_pos hg] at h
        rw [if_pos hg] at h
        rw [Prod.mk.injEq, Option.some.injEq] at h
        obtain ⟨rfl, rfl⟩ := h
        exact ⟨v0, v1, v2, v3, rfl, hb0L, hb0R, hb1L, hb1R, hb2L, hb2R, hb3L, hb3R⟩
      · -- stabilization: the total missed the isclose gate
        rw [if_neg hg] at h
        -- deviation of the rounded total from 1
        obtain ⟨habs0a, habs0b⟩ := abs_le.mp he0
        obtain ⟨habs1a, habs1b⟩ := abs_le.mp he1
        obtain ⟨habs2a, habs2b⟩ := abs_le.mp he2
        obtain ⟨habs3a, habs3b⟩ := abs_le.mp he3
        have hmt : isMul4 (v0 + v1 + v2 + v3 - 1) :=
          isMul4_sub (isMul4_add (isMul4_add (isMul4_add hm0 hm1) hm2) hm3) isMul4_one
        have hdev1 : |v0 + v1 + v2 + v3 - 1| ≤ 1 / 5000 := by
          rw [abs_le]
          constructor <;> [linarith; linarith]
        have hdev2 : 11 / 100000 < |v0 + v1 + v2 + v3 - 1| := by
          simp only [npIsClose, ATOL, htot, abs_one, decide_eq_true_eq, not_le] at hg
          linarith
        have hdev : |v0 + v1 + v2 + v3 - 1| = 1 / 5000 := isMul4_between hmt hdev2 hdev1
        rw [htot] at h
        have hj := argmaxIdx_lt (l := [v0, v1, v2, v3]) (by simp)
        simp only [List.length_cons, List.length_nil] at hj
        have hmax0 := argmaxIdx_max (l := [v0, v1, v2, v3]) 0 (by simp)
        have hmax1 := argmaxIdx_max (l := [v0, v1, v2, v3]) 1 (by simp)
        have hmax2 := argmaxIdx_max (l := [v0, v1, v2, v3]) 2 (by simp)
        have hmax3 := argmaxIdx_max (l := [v0, v1, v2, v3]) 3 (by simp)
        simp only [List.getD_cons_zero, List.getD_cons_succ] at hmax0 hmax1 hmax2 hmax3
        set j := argmaxIdx [v0, v1, v2, v3] with hjdef
        rcases abs_eq (by norm_num : (0 : ℚ) ≤ 1 / 5000) |>.mp hdev with hcase | hcase
        · -- total = 1 + 2e-4: every rounding went up by exactly 5e-5
          have hd0 : v0 - r0 = 1 / 20000 := by linarith
          have hd1 : v1 - r1 = 1 / 20000 := by linarith
          have hd2 : v2 - r2 = 1 / 20000 := by linarith
          have hd3 : v3 - r3 = 1 / 20000 := by linarith
          interval_cases j
          · -- stocks adjusted downwards
            simp only [adjustAt] at h
            have hfix : roundTo 4 (v0 + (1 - (v0 + v1 + v2 + v3))) =
                v0 + (1 - (v0 + v1 + v2 + v3)) :=
              roundTo4_isMul4_eq (isMul4_add hm0 (isMul4_sub isMul4_one
                (isMul4_add (isMul4_add (isMul4_add hm0 hm1) hm2) hm3)))
            rw [hfix] at h
            split at h
            · rw [Prod.mk.injEq, Option.some.injEq] at h
              obtain ⟨rfl, rfl⟩ := h
              have hstep : 2/5 + 1/10000 ≤ v0 :=
                isMul4_step hm0 ⟨4000, by norm_num⟩ (by linarith)
              exact ⟨_, v1, v2, v3, rfl, by linarith, by linarith, hb1L, hb1R,
                hb2L, hb2R, hb3L, hb3R⟩
            · simp at h
          · -- bonds adjusted downwards
            simp only [adjustAt] at h
            have hfix : roundTo 4 (v1 + (1 - (v0 + v1 + v2 + v3))) =
                v1 + (1 - (v0 + v1 + v2 + v3)) :=
              roundTo4_isMul4_eq (isMul4_add hm1 (isMul4_sub isMul4_one
                (isMul4_add (isMul4_add (isMul4_add hm0 hm1) hm2) hm3)))
            rw [hfix] at h
            split at h
            · rw [Prod.mk.injEq, Option.some.injEq] at h
              obtain ⟨rfl, rfl⟩ := h
              have hstep : 1/10 + 1/10000 ≤ v1 :=
                isMul4_step hm1 ⟨1000, by norm_num⟩ (by linarith)
              exact ⟨v0, _, v2, v3, rfl, hb0L, hb0R, by linarith, by linarith,
                hb2L, hb2R, hb3L, hb3R⟩
            · simp at h
          · -- cash adjusted downwards
            simp only [adjustAt] at h
            have hfix : roundTo 4 (v2 + (1 - (v0 + v1 + v2 + v3))) =
                v2 + (1 - (v0 + v1 + v2 + v3)) :=
              roundTo4_isMul4_eq (isMul4_add hm2 (isMul4_sub isMul4_one
                (isMul4_add (isMul4_add (isMul4_add hm0 hm1) hm2) hm3)))
            rw [hfix] at h
            split at h
            · rw [Prod.mk.injEq, Option.some.injEq] at h
              obtain ⟨rfl, rfl⟩ := h
              have hstep : 1/20 + 1/10000 ≤ v2 :=
                isMul4_step hm2 ⟨500, by norm_num⟩ (by linarith)
              exact ⟨v0, v1, _, v3, rfl, hb0L, hb0R, hb1L, hb1R,
                by linarith, by linarith, hb3L, hb3R⟩
            · simp at h
          · -- the last category cannot be the largest: it would exceed its
            -- own bound check
            exfalso
            simp only [List.getD_cons_zero, List.getD_cons_succ] at hmax0 hmax1 hmax2
            linarith
        · -- total = 1 - 2e-4: every rounding went down by exactly 5e-5
          have hd0 : v0 - r0 = -(1 / 20000) := by linarith
          have hd1 : v1 - r1 = -(1 / 20000) := by linarith
          have hd2 : v2 - r2 = -(1 / 20000) := by linarith
          have hd3 : v3 - r3 = -(1 / 20000) := by linarith
          interval_cases j
          · -- stocks adjusted upwards
            simp only [adjustAt] at h
            have hfix : roundTo 4 (v0 + (1 - (v0 + v1 + v2 + v3))) =
                v0 + (1 - (v0 + v1 + v2 + v3)) :=
              roundTo4_isMul4_eq (isMul4_add hm0 (isMul4_sub isMul4_one
                (isMul4_add (isMul4_add (isMul4_add hm0 hm1) hm2) hm3)))
            rw [hfix] at h
            split at h
            · rw [Prod.mk.injEq, Option.some.injEq] at h
              obtain ⟨rfl, rfl⟩ := h
              have hstep : v0 + 1/10000 ≤ 4/5 :=
                isMul4_step ⟨8000, by norm_num⟩ hm0 (by linarith)
              exact ⟨_, v1, v2, v3, rfl, by linarith, by linarith, hb1L, hb1R,
                hb2L, hb2R, hb3L, hb3R⟩
            · simp at h
          · -- bonds adjusted upwards
            simp only [adjustAt] at h
            have hfix : roundTo 4 (v1 + (1 - (v0 + v1 + v2 + v3))) =
                v1 + (1 - (v0 + v1 + v2 + v3)) :=
              roundTo4_isMul4_eq (isMul4_add hm1 (isMul4_sub isMul4_one
                (isMul4_add (isMul4_add (isMul4_add hm0 hm1) hm2) hm3)))
            rw [hfix] at h
            split at h
            · rw [Prod.mk.injEq, Option.some.injEq] at h
              obtain ⟨rfl, rfl⟩ := h
              have hstep : v1 + 1/10000 ≤ 2/5 :=
                isMul4_step ⟨4000, by norm_num⟩ hm1 (by linarith)
              exact ⟨v0, _, v2, v3, rfl, hb0L, hb0R, by linarith, by linarith,
                hb2L, hb2R, hb3L, hb3R⟩
            · simp at h
          · -- cash adjusted upwards
            simp only [adjustAt] at h
            have hfix : roundTo 4 (v2 + (1 - (v0 + v1 + v2 + v3))) =
                v2 + (1 - (v0 + v1 + v2 + v3)) :=
              roundTo4_isMul4_eq (isMul4_add hm2 (isMul4_sub isMul4_one
                (isMul4_add (isMul4_add (isMul4_add hm0 hm1) hm2) hm3)))
            rw [hfix] at h
            split at h
            · rw [Prod.mk.injEq, Option.some.injEq] at h
              obtain ⟨rfl, rfl⟩ := h
              have hstep : v2 + 1/10000 ≤ 1/5 :=
                isMul4_step ⟨2000, by norm_num⟩ hm2 (by linarith)
              exact ⟨v0, v1, _, v3, rfl, hb0L, hb0R, hb1L, hb1R,
                by linarith, by linarith, hb3L, hb3R⟩
            · simp at h
          · -- the last category cannot be the largest
            exfalso
            simp only [List.getD_cons_zero, List.getD_cons_succ] at hmax0 hmax1 hmax2
            linarith
    · rw [if_neg hbok] at h
      simp at h

/-! ### Claim C3: infeasible minimums -/

lemma allocAssign_infeasible {n1 : String} {lo1 hi1 : ℚ} {b : Asset} {rest : List Asset}
    (g : Rng) (hsum : 1 < lo1 + ((b :: rest).map fun a => a.2.1).sum) :
    allocAssign ((n1, lo1, hi1) :: b :: rest) 1 g = (none, g) := by
  have h : min hi1 (1 - ((b :: rest).map fun a => a.2.1).sum) < lo1 :=
    lt_of_le_of_lt (min_le_right _ _) (by linarith)
  show (if min hi1 (1 - ((b :: rest).map fun a => a.2.1).sum) < lo1 then
      ((none : Option (List (String × ℚ))), g)
    else _) = (none, g)
  exact if_pos h

lemma allocRetry_infeasible (k : ℕ) {a1 b : Asset} {rest : List Asset} (g : Rng)
    (hsum : 1 < ((a1 :: b :: rest).map fun a => a.2.1).sum) :
    allocRetry k (a1 :: b :: rest) g = (none, g) := by
  induction k generalizing g with
  | zero => rfl
  | succ n ih =>
    obtain ⟨n1, lo1, hi1⟩ := a1
    have h0 : allocAssign ((n1, lo1, hi1) :: b :: rest) 1 g = (none, g) :=
      allocAssign_infeasible g (by simpa using hsum)
    simp [allocRetry, allocAttempt, h0, ih]

/-- **C3**: when the configured per-category minimums sum to more than 1.0,
a call to the allocation sampler runs its bounded retry loop (10 attempts,
each aborting at the first category with `max_possible < min`) and fails
with the allocation error; it never returns an allocation.  The sampler is a
total function, so non-termination is excluded by construction. -/
theorem allocation_error_on_infeasible_minimums (assets : List Asset)
    (a1 a2 : Asset) (rest : List Asset) (g : Rng)
    (hshape : assets = a1 :: a2 :: rest)
    (hsum : 1 < (assets.map fun a => a.2.1).sum) :
    generateAllocation assets g = (none, g) := by
  subst hshape
  exact allocRetry_infeasible 10 g hsum

/-- Witness for C3: three categories each with minimum allocation 0.4 (the
spec's scenario example) make the sampler fail for a concrete stream. -/
theorem allocation_error_on_infeasible_minimums_witness :
    generateAllocation [("a", 2/5, 1/2), ("b", 2/5, 1/2), ("c", 2/5, 1/2)]
      ⟨fun _ => 0, 0⟩ = (none, ⟨fun _ => 0, 0⟩) :=
  allocation_error_on_infeasible_minimums _ ("a", 2/5, 1/2) ("b", 2/5, 1/2)
    [("c", 2/5, 1/2)] _ rfl (by norm_num)

/-! ## Configuration and record model

The configuration object (`data/configs/settings.json`, consumed through
`config_manager` and the generators' constructors).  String-encoded salary
ranges (`"50000-70000"`) appear here already parsed into a rational pair, as
`EmploymentDataGenerator._add_salary_data` parses them before use.  Lookups
that would raise a Python `KeyError` (unknown industry or level) return a
zero default; every claim below only exercises present keys. -/

/-- One band of `salary_distribution` (`normal_range`, `low_outlier`,
`high_outlier`). -/
structure SalaryBand where
  probability : ℚ
  min_ratio : ℚ
  max_ratio : ℚ
deriving DecidableEq

/-- One entry of `experience_levels`. -/
structure LevelCfg where
  name : String
  probability : ℚ
  investment_rate : ℚ × ℚ
  luxury_spending : ℚ × ℚ
  travel_spending : ℚ × ℚ
deriving DecidableEq

/-- One entry of `industry_ranges.json`: industry name and the per-level
salary range (parsed from the `"min-max"` strings). -/
structure IndustryInfo where
  industry : String
  salary_ranges : List (String × ℚ × ℚ)
deriving DecidableEq

/-- The resolved configuration used by the `src/src/generators` pipeline. -/
structure Config where
  industry_data : List IndustryInfo
  experience_levels : List LevelCfg
  normal_range : SalaryBand
  low_outlier : SalaryBand
  high_outlier : SalaryBand
  fraud_probability : ℚ
  fraud_types : List (String × ℚ)
  asset_returns : List (String × ℚ × ℚ)
deriving DecidableEq

/-- Association-list lookup with a zero default (Python `dict` access; the
pipeline only looks up present keys). -/
def lookupQQ (l : List (String × ℚ × ℚ)) (k : String) : ℚ × ℚ :=
  match l.find? fun p => p.1 == k with
  | some p => p.2
  | none => (0, 0)

/-- Employment record after `_add_salary_data` (`reported_salary` is a copy
of `salary`). -/
structure EmpRec where
  industry : String
  experience_level : String
  salary : ℚ
  reported_salary : ℚ
deriving DecidableEq

/-- Employment record after `FraudScenarioGenerator.add_fraud_indicators`.
`fraud_type` is an `Option`: `some s` is the string value `s`, `none` models
a missing (`NA`) entry of the pandas `fraud_type` column. -/
structure EmpRecF where
  base : EmpRec
  is_fraudulent : Bool
  fraud_type : Option String
deriving DecidableEq

/-- Record after `_add_portfolio_data`. -/
structure PortRec where
  base : EmpRecF
  annual_investment : ℚ
  stocks : ℚ
  bonds : ℚ
  cash : ℚ
  real_estate : ℚ
deriving DecidableEq

/-- Record after `_add_returns_data`. -/
structure RetRec where
  base : PortRec
  expected_annual_return : ℚ
  expected_value_1yr : ℚ
deriving DecidableEq

/-- Record after `_add_lifestyle_indicators`. -/
structure LifeRec where
  base : RetRec
  luxury_spending : ℚ
  travel_spending : ℚ
  lifestyle_ratio : ℚ
  suspicious_lifestyle : Bool
deriving DecidableEq

/-- `n` successive draws with an arbitrary single-draw function. -/
def drawN {α : Type} (draw : Rng → α × Rng) : ℕ → Rng → List α × Rng
  | 0, g => ([], g)
  | n + 1, g =>
    let (x, g1) := draw g
    let (xs, g2) := drawN draw n g1
    (x :: xs, g2)

/-! ## FraudScenarioGenerator.add_fraud_indicators
(`src/src/generators/components.py`, lines 128-161)

The pass draws one unit value per row (`rng.random(size) < fraud_prob`),
flags the selected rows, draws one fraud type per flagged row from the
normalized type probabilities, and then executes
`data.loc[fraud_indices, 'fraud_type'] = pd.Series(assigned_types, ...)`.
The right-hand `Series` carries the default index `0..k-1` (`k` = number of
flagged rows) while the target labels are the flagged row labels, and pandas
aligns on labels: flagged row `i` receives `assigned_types[i]` when
`i < k` and the missing value `NA` otherwise.  The setter function receives
the row, the flag, and the aligned `fraud_type` value. -/

/-- Per-type probabilities normalized to sum to 1. -/
def normProbs (l : List (String × ℚ)) : List (String × ℚ) :=
  let total := (l.map Prod.snd).sum
  l.map fun p => (p.1, p.2 / total)

/-- Write the fraud columns row by row: `i` is the current row label, the
flagged row `i` receives the `i`-th drawn type when `i` is below the number
of drawn types and `NA` (`none`) otherwise — the pandas label alignment
described above. -/
def setFraudList {α β : Type} (set : α → Bool → Option String → β) :
    List α → List Bool → ℕ → List String → List β
  | [], _, _, _ => []
  | r :: rs, [], i, types =>
    set r false (some "none") :: setFraudList set rs [] (i + 1) types
  | r :: rs, m :: ms, i, types =>
    (if m then
      set r true (if i < types.length then some (types.getD i "") else none)
    else set r false (some "none")) :: setFraudList set rs ms (i + 1) types

/-- `add_fraud_indicators`, generic in the frame row type: at the employment
stage it appends the two fraud columns, at the investment stage it
overwrites them. -/
def addFraudIndicators {α β : Type} (set : α → Bool → Option String → β)
    (fraudProb : ℚ) (ftypes : List (String × ℚ)) (rows : List α) (g : Rng) :
    List β × Rng :=
  let (us, g1) := drawN Rng.next rows.length g
  let mask := us.map fun u => decide (u < fraudProb)
  let (types, g2) := drawN (fun h => h.choice (normProbs ftypes) "") (mask.count true) g1
  (setFraudList set rows mask 0 types, g2)

/-! ## EmploymentDataGenerator.generate
(`src/src/generators/employment_generator.py`, lines 96-185)

Column passes in source order: industry (one uniform choice per row),
experience level (one categorical draw per row), salary (three draws per
row: base uniform in the industry/level range, band choice, ratio uniform in
the band), `reported_salary = salary`, then the fraud pass.  The
`DataComponent` constructor gives the generator instance its own seeded
`RandomState` and the `FraudScenarioGenerator` member a second, independent
`RandomState` seeded with the same seed — hence the two separate streams
`gEmp` and `gFraud`. -/

def salaryBands (cfg : Config) : List (SalaryBand × ℚ) :=
  [(cfg.normal_range, cfg.normal_range.probability),
   (cfg.low_outlier, cfg.low_outlier.probability),
   (cfg.high_outlier, cfg.high_outlier.probability)]

def levelProbs (cfg : Config) : List (String × ℚ) :=
  cfg.experience_levels.map fun l => (l.name, l.probability)

def industryNames (cfg : Config) : List String :=
  cfg.industry_data.map fun i => i.industry

def salaryRangeOf (cfg : Config) (industry lvl : String) : ℚ × ℚ :=
  match cfg.industry_data.find? fun i => i.industry == industry with
  | some ind => lookupQQ ind.salary_ranges lvl
  | none => (0, 0)

/-- The three per-row salary draws of `_add_salary_data`. -/
def drawSalary (cfg : Config) (industry lvl : String) (g : Rng) : ℚ × Rng :=
  let (lo, hi) := salaryRangeOf cfg industry lvl
  let (base, g1) := g.uniform lo hi
  let (band, g2) := g1.choice (salaryBands cfg) cfg.normal_range
  let (ratio, g3) := g2.uniform band.min_ratio band.max_ratio
  (roundTo 2 (base * ratio), g3)

def addSalaryData (cfg : Config) : List (String × String) → Rng → List EmpRec × Rng
  | [], g => ([], g)
  | (ind, lvl) :: rest, g =>
    let (s, g1) := drawSalary cfg ind lvl g
    let (tl, g2) := addSalaryData cfg rest g1
    (⟨ind, lvl, s, s⟩ :: tl, g2)

/-- `EmploymentDataGenerator.generate` (the `DataFrameValidationStrategy`
call at its end only checks column presence and dtypes, which hold by
construction in this typed embedding). -/
def employmentGenerate (cfg : Config) (size : ℕ) (gEmp gFraud : Rng) :
    List EmpRecF × Rng × Rng :=
  let (inds, g1) := drawN (fun g => g.choiceUniform (industryNames cfg) "") size gEmp
  let (lvls, g2) := drawN (fun g => g.choice (levelProbs cfg) "") size g1
  let (recs, g3) := addSalaryData cfg (inds.zip lvls) g2
  let (recsF, gF) :=
    addFraudIndicators (fun r b t => EmpRecF.mk r b t)
      cfg.fraud_probability cfg.fraud_types recs gFraud
  (recsF, g3, gF)

/-! ## InvestmentDataGenerator.generate
(`src/src/generators/investment_generator.py`, lines 127-306)

The investment passes call the module-level `np.random.uniform` /
`np.random.normal`, not the instance's seeded `RandomState` — they consume
the process-global numpy stream, modelled by the separate `gGlob` stream
threaded through `addPortfolioData`, `addReturnsData` and
`addLifestyleData`.  The final fraud pass uses the investment generator's
own `FraudScenarioGenerator` instance (a fresh `RandomState` seeded with the
configured seed): stream `gInvF`. -/

def investRateOf (cfg : Config) (lvl : String) : ℚ × ℚ :=
  match cfg.experience_levels.find? fun l => l.name == lvl with
  | some l => l.investment_rate
  | none => (0, 0)

def luxuryRangeOf (cfg : Config) (lvl : String) : ℚ × ℚ :=
  match cfg.experience_levels.find? fun l => l.name == lvl with
  | some l => l.luxury_spending
  | none => (0, 0)

def travelRangeOf (cfg : Config) (lvl : String) : ℚ × ℚ :=
  match cfg.experience_levels.find? fun l => l.name == lvl with
  | some l => l.travel_spending
  | none => (0, 0)

/-- First loop of `_add_portfolio_data`: one investment-rate draw per row,
`annual_investment = round(salary * rate, 2)`. -/
def drawInvestAmounts (cfg : Config) : List EmpRecF → Rng → List ℚ × Rng
  | [], g => ([], g)
  | r :: rs, g =>
    let (lo, hi) := investRateOf cfg r.base.experience_level
    let (rate, g1) := g.uniform lo hi
    let (tl, g2) := drawInvestAmounts cfg rs g1
    (roundTo 2 (r.base.salary * rate) :: tl, g2)

/-- Second loop of `_add_portfolio_data`: one `_generate_allocation` call per
row; the first failure propagates (aborting the batch). -/
def drawAllocs : ℕ → Rng → Option (List (List (String × ℚ))) × Rng
  | 0, g => (some [], g)
  | n + 1, g =>
    match generateAllocation assetClasses g with
    | (none, g1) => (none, g1)
    | (some a, g1) =>
      match drawAllocs n g1 with
      | (some as, g2) => (some (a :: as), g2)
      | (none, g2) => (none, g2)

/-- Assemble one portfolio row: the allocation columns come from the
allocation list in category order (`stocks, bonds, cash, real_estate`). -/
def mkPort (r : EmpRecF) (inv : ℚ) (al : List (String × ℚ)) : PortRec :=
  ⟨r, inv, (al.getD 0 ("", 0)).2, (al.getD 1 ("", 0)).2,
   (al.getD 2 ("", 0)).2, (al.getD 3 ("", 0)).2⟩

def zip3Port : List EmpRecF → List ℚ → List (List (String × ℚ)) → List PortRec
  | r :: rs, v :: vs, a :: as => mkPort r v a :: zip3Port rs vs as
  | _, _, _ => []

def addPortfolioData (cfg : Config) (rows : List EmpRecF) (g : Rng) :
    Option (List PortRec) × Rng :=
  let (invs, g1) := drawInvestAmounts cfg rows g
  match drawAllocs rows.length g1 with
  | (none, g2) => (none, g2)
  | (some als, g2) => (some (zip3Port rows invs als), g2)

/-- The allocation value of a row under an asset name (`row[asset]`). -/
def allocOf (r : PortRec) (asset : String) : ℚ :=
  if asset = "stocks" then r.stocks
  else if asset = "bonds" then r.bonds
  else if asset = "cash" then r.cash
  else if asset = "real_estate" then r.real_estate
  else 0

/-- Inner loop of `_add_returns_data`: one normal draw per configured asset,
accumulating `allocation * draw`. -/
def returnSum (r : PortRec) : List (String × ℚ × ℚ) → Rng → ℚ × Rng
  | [], g => (0, g)
  | (asset, avg, vol) :: rest, g =>
    let (z, g1) := g.normal avg vol
    let (tl, g2) := returnSum r rest g1
    (allocOf r asset * z + tl, g2)

def addReturnsData (cfg : Config) : List PortRec → Rng → List RetRec × Rng
  | [], g => ([], g)
  | r :: rs, g =>
    let (tot, g1) := returnSum r cfg.asset_returns g
    let ear := roundTo 4 tot
    let (tl, g2) := addReturnsData cfg rs g1
    (⟨r, ear, roundTo 2 (r.annual_investment * (1 + ear))⟩ :: tl, g2)

/-- `_add_lifestyle_indicators`: two spending draws per row; then
`lifestyle_ratio = round((luxury + travel) / reported_salary, 4)` and
`suspicious_lifestyle = ratio > 0.4 or luxury > reported_salary * 0.25`
(constants hard-coded at lines 297-304). -/
def addLifestyleData (cfg : Config) : List RetRec → Rng → List LifeRec × Rng
  | [], g => ([], g)
  | r :: rs, g =>
    let lvl := r.base.base.base.experience_level
    let sal := r.base.base.base.salary
    let (lmin, lmax) := luxuryRangeOf cfg lvl
    let (lu, g1) := g.uniform lmin lmax
    let lux := roundTo 2 (sal * lu)
    let (tmin, tmax) := travelRangeOf cfg lvl
    let (tu, g2) := g1.uniform tmin tmax
    let trav := roundTo 2 (sal * tu)
    let rep := r.base.base.base.reported_salary
    let ratio := roundTo 4 ((lux + trav) / rep)
    let susp := decide (ratio > 2/5) || decide (lux > rep * (1/4))
    let (tl, g3) := addLifestyleData cfg rs g2
    (⟨r, lux, trav, ratio, susp⟩ :: tl, g3)

/-- Overwrite the fraud columns of an investment-stage row (the second
`add_fraud_indicators` call writes into the existing columns). -/
def LifeRec.setFraud (r : LifeRec) (b : Bool) (t : Option String) : LifeRec :=
  { r with base := { r.base with base := { r.base.base with base :=
      { r.base.base.base with is_fraudulent := b, fraud_type := t } } } }

/-- `InvestmentDataGenerator.generate`: employment base, portfolio, returns,
lifestyle, fraud pass; an allocation failure aborts the batch (`none`).  The
closing `validator.validate` call checks only column presence and dtypes,
which hold by construction here. -/
def investGenerate (cfg : Config) (size : ℕ) (gEmp gEmpF gInvF gGlob : Rng) :
    Option (List LifeRec) × Rng :=
  let (emp, _, _) := employmentGenerate cfg size gEmp gEmpF
  match addPortfolioData cfg emp gGlob with
  | (none, g1) => (none, g1)
  | (some port, g1) =>
    let (ret, g2) := addReturnsData cfg port g1
    let (life, g3) := addLifestyleData cfg ret g2
    let (out, _) :=
      addFraudIndicators LifeRec.setFraud cfg.fraud_probability cfg.fraud_types life gInvF
    (some out, g3)

/-- Employment-stage projection of a final investment record. -/
def LifeRec.empF (r : LifeRec) : EmpRecF := r.base.base.base

/-- Base employment-columns projection of a final investment record. -/
def LifeRec.empRec (r : LifeRec) : EmpRec := r.base.base.base.base

/-! ## EmploymentGenerator.add_fraud_scenarios
(`src/src/controllers/employment_generator.py`, lines 268-295 — the second
definition of the method, which in Python overrides the one at lines
129-162)

Per row, from the process-global `np.random`: one draw decides fraud (rate
hard-coded `0.1`); for a flagged row a second draw picks the scenario
(50-50); salary misreporting sets
`reported_salary = round(salary * uniform(0.7, 0.9), 2)` and the type;
experience inflation promotes only `entry` rows to `mid` — a flagged
non-entry row keeps `fraud_type = 'none'` while `is_fraudulent` stays
`True`. -/

/-- Controller employment row before the fraud pass (industry, level,
salary). -/
structure CEmpRec where
  industry : String
  experience_level : String
  salary : ℚ
deriving DecidableEq

/-- Controller employment row after the fraud pass. -/
structure CEmpRecF where
  industry : String
  experience_level : String
  salary : ℚ
  reported_salary : ℚ
  is_fraudulent : Bool
  fraud_type : String
deriving DecidableEq

def addFraudScenariosC : List CEmpRec → Rng → List CEmpRecF × Rng
  | [], g => ([], g)
  | r :: rs, g =>
    let (u1, g1) := g.next
    if u1 < 1/10 then
      let (u2, g2) := g1.next
      if u2 < 1/2 then
        let (ratio, g3) := g2.uniform (7/10) (9/10)
        let (tl, g4) := addFraudScenariosC rs g3
        (⟨r.industry, r.experience_level, r.salary, roundTo 2 (r.salary * ratio),
          true, "salary_misreporting"⟩ :: tl, g4)
      else
        if r.experience_level = "entry" then
          let (tl, g3) := addFraudScenariosC rs g2
          (⟨r.industry, "mid", r.salary, r.salary, true, "experience_inflation"⟩ :: tl, g3)
        else
          let (tl, g3) := addFraudScenariosC rs g2
          (⟨r.industry, r.experience_level, r.salary, r.salary, true, "none"⟩ :: tl, g3)
    else
      let (tl, g1b) := addFraudScenariosC rs g1
      (⟨r.industry, r.experience_level, r.salary, r.salary, false, "none"⟩ :: tl, g1b)

/-! ## Validation
(`src/src/validation/validation_framework.py` lines 34-63 and
`src/src/controllers/investment_generator.py` lines 142-173)

`DataFrameValidationStrategy.validate` raises `ValidationError(message,
details)` on a missing required column or a dtype mismatch and otherwise
returns `True`; the frame is modelled by its column names and dtype names.
`InvestmentGenerator.validate` is a plain `bool`: it returns `False` when a
rule fails (required columns, allocation sums close to 1,
`reported_income ≤ salary`, `reported_deductions ≥ true_deductions`) and
never raises. -/

/-- `ValidationError(message, details)`; `details` maps a detail key to the
offending names. -/
structure ValidationError where
  message : String
  details : List (String × List String)
deriving DecidableEq

/-- A pandas frame as the validation strategy sees it: column names with
their dtype names. -/
structure PandasFrame where
  columns : List String
  dtypes : List (String × String)
deriving DecidableEq

def dtypeOf (f : PandasFrame) (c : String) : String :=
  match f.dtypes.find? fun p => p.1 == c with
  | some p => p.2
  | none => ""

/-- `DataFrameValidationStrategy.validate`. -/
def dfvsValidate (required : List String) (columnTypes : List (String × String))
    (f : PandasFrame) : Except ValidationError Bool :=
  let missing := required.filter fun c => ¬ f.columns.contains c
  if missing ≠ [] then
    .error ⟨"Missing required columns", [("missing_columns", missing)]⟩
  else
    match columnTypes.find? fun p => f.columns.contains p.1 && dtypeOf f p.1 != p.2 with
    | some p =>
      .error ⟨"Invalid type for column " ++ p.1,
        [("column", [p.1]), ("expected_type", [p.2]), ("actual_type", [dtypeOf f p.1])]⟩
    | none => .ok true

/-- The columns of a controller investment row that its `validate` method
reads. -/
structure CInvRec where
  salary : ℚ
  stocks : ℚ
  bonds : ℚ
  cash : ℚ
  real_estate : ℚ
  reported_income : ℚ
  reported_deductions : ℚ
  true_deductions : ℚ
deriving DecidableEq

/-- A controller dataset: column names plus rows (`self.data`; `none` is the
`self.data is None` state). -/
structure CFrame where
  columns : List String
  rows : List CInvRec
deriving DecidableEq

/-- `required_columns` of `InvestmentGenerator.validate`. -/
def invRequiredColumns : List String :=
  ["industry", "experience_level", "salary", "annual_investment",
   "stocks", "bonds", "cash", "real_estate",
   "expected_annual_return", "expected_value_1yr",
   "reported_income", "reported_deductions", "true_deductions",
   "luxury_spending", "travel_spending", "lifestyle_ratio",
   "is_fraudulent", "fraud_type", "suspicious_lifestyle"]

/-- `InvestmentGenerator.validate`: a boolean, `False` on any rule
violation (`np.allclose(..., atol=1e-4)` keeps numpy's default
`rtol = 1e-5`, as in `npIsClose`). -/
def invValidate (d : Option CFrame) : Bool :=
  match d with
  | none => false
  | some f =>
    invRequiredColumns.all (fun c => f.columns.contains c) &&
    f.rows.all (fun r => npIsClose (1/10000) (r.stocks + r.bonds + r.cash + r.real_estate) 1) &&
    f.rows.all (fun r => decide (r.reported_income ≤ r.salary)) &&
    f.rows.all (fun r => decide (r.reported_deductions ≥ r.true_deductions))

/-! ## Frame and membership lemmas for the pipeline passes -/

/-- Field accessors of a final investment record (the columns live in the
nested per-stage records). -/
def LifeRec.stocks (r : LifeRec) : ℚ := r.base.base.stocks

def LifeRec.bonds (r : LifeRec) : ℚ := r.base.base.bonds

def LifeRec.cash (r : LifeRec) : ℚ := r.base.base.cash

def LifeRec.real_estate (r : LifeRec) : ℚ := r.base.base.real_estate

def LifeRec.annual_investment (r : LifeRec) : ℚ := r.base.base.annual_investment

def LifeRec.salary (r : LifeRec) : ℚ := r.base.base.base.base.salary

def LifeRec.reported_salary (r : LifeRec) : ℚ := r.base.base.base.base.reported_salary

def LifeRec.is_fraudulent (r : LifeRec) : Bool := r.base.base.base.is_fraudulent

def LifeRec.fraud_type (r : LifeRec) : Option String := r.base.base.base.fraud_type

lemma drawN_length {α : Type} (d : Rng → α × Rng) (n : ℕ) (g : Rng) :
    (drawN d n g).1.length = n := by
  induction n generalizing g with
  | zero => rfl
  | succ n ih => simp [drawN, ih]

lemma drawN_mem {α : Type} {d : Rng → α × Rng} {n : ℕ} {g : Rng} {x : α}
    (h : x ∈ (drawN d n g).1) : ∃ g1, x = (d g1).1 := by
  induction n generalizing g with
  | zero => simp [drawN] at h
  | succ n ih =>
    simp only [drawN] at h
    rcases List.mem_cons.mp h with rfl | h2
    · exact ⟨g, rfl⟩
    · exact ih h2

lemma addSalaryData_mem {cfg : Config} {prs : List (String × String)} {g : Rng}
    {r : EmpRec} (h : r ∈ (addSalaryData cfg prs g).1) :
    ∃ p ∈ prs, ∃ g1, r = ⟨p.1, p.2, (drawSalary cfg p.1 p.2 g1).1,
      (drawSalary cfg p.1 p.2 g1).1⟩ := by
  induction prs generalizing g with
  | nil => simp [addSalaryData] at h
  | cons p rest ih =>
    obtain ⟨ind, lvl⟩ := p
    simp only [addSalaryData] at h
    rcases List.mem_cons.mp h with rfl | h2
    · exact ⟨(ind, lvl), by simp, g, rfl⟩
    · obtain ⟨q, hq, g2, he⟩ := ih h2
      exact ⟨q, by simp [hq], g2, he⟩

lemma addSalaryData_length (cfg : Config) (prs : List (String × String)) (g : Rng) :
    (addSalaryData cfg prs g).1.length = prs.length := by
  induction prs generalizing g with
  | nil => rfl
  | cons p rest ih =>
    obtain ⟨ind, lvl⟩ := p
    simp [addSalaryData, ih]

lemma setFraudList_length {α β : Type} (set : α → Bool → Option String → β)
    (rows : List α) (mask : List Bool) (i : ℕ) (types : List String) :
    (setFraudList set rows mask i types).length = rows.length := by
  induction rows generalizing mask i with
  | nil => cases mask <;> rfl
  | cons r rs ih => cases mask <;> simp [setFraudList, ih]

lemma setFraudList_mem {α β : Type} {set : α → Bool → Option String → β}
    {rows : List α} {mask : List Bool} {i : ℕ} {types : List String} {b : β}
    (h : b ∈ setFraudList set rows mask i types) :
    ∃ r ∈ rows, ∃ bo t, b = set r bo t := by
  induction rows generalizing mask i with
  | nil => cases mask <;> simp [setFraudList] at h
  | cons r rs ih =>
    cases mask with
    | nil =>
      simp only [setFraudList] at h
      rcases List.mem_cons.mp h with rfl | h2
      · exact ⟨r, by simp, false, some "none", rfl⟩
      · obtain ⟨q, hq, bo, t, he⟩ := ih h2
        exact ⟨q, by simp [hq], bo, t, he⟩
    | cons m ms =>
      simp only [setFraudList] at h
      rcases List.mem_cons.mp h with rfl | h2
      · by_cases hm : m = true
        · subst hm
          exact ⟨r, by simp, true,
            (if i < types.length then some (types.getD i "") else none), by simp⟩
        · have : m = false := by simpa using hm
          subst this
          exact ⟨r, by simp, false, some "none", by simp⟩
      · obtain ⟨q, hq, bo, t, he⟩ := ih h2
        exact ⟨q, by simp [hq], bo, t, he⟩

/-- When no row is flagged, every output row is the input row with
`is_fraudulent = false` and `fraud_type = "none"`. -/
lemma setFraudList_mem_nofraud {α β : Type} {set : α → Bool → Option String → β}
    {rows : List α} {mask : List Bool} {i : ℕ} {types : List String} {b : β}
    (hmask : ∀ m ∈ mask, m = false)
    (h : b ∈ setFraudList set rows mask i types) :
    ∃ r ∈ rows, b = set r false (some "none") := by
  induction rows generalizing mask i with
  | nil => cases mask <;> simp [setFraudList] at h
  | cons r rs ih =>
    cases mask with
    | nil =>
      simp only [setFraudList] at h
      rcases List.mem_cons.mp h with rfl | h2
      · exact ⟨r, by simp, rfl⟩
      · obtain ⟨q, hq, he⟩ := ih (by simp) h2
        exact ⟨q, by simp [hq], he⟩
    | cons m ms =>
      have hm : m = false := hmask m (by simp)
      subst hm
      simp only [setFraudList, if_neg (by simp : ¬ (false = true))] at h
      rcases List.mem_cons.mp h with rfl | h2
      · exact ⟨r, by simp, rfl⟩
      · obtain ⟨q, hq, he⟩ := ih (fun x hx => hmask x (by simp [hx])) h2
        exact ⟨q, by simp [hq], he⟩

/-- Every output row of the fraud pass is either unflagged with
`fraud_type = "none"` or flagged with some aligned `fraud_type` value
(a drawn type when the row label is below the number of drawn types, `NA`
otherwise). -/
lemma setFraudList_mem_cases {α β : Type} {set : α → Bool → Option String → β}
    {rows : List α} {mask : List Bool} {i : ℕ} {types : List String} {b : β}
    (h : b ∈ setFraudList set rows mask i types) :
    ∃ r ∈ rows, b = set r false (some "none") ∨ ∃ t, b = set r true t := by
  induction rows generalizing mask i with
  | nil => cases mask <;> simp [setFraudList] at h
  | cons r rs ih =>
    cases mask with
    | nil =>
      simp only [setFraudList] at h
      rcases List.mem_cons.mp h with rfl | h2
      · exact ⟨r, by simp, Or.inl rfl⟩
      · obtain ⟨q, hq, hc⟩ := ih h2
        exact ⟨q, by simp [hq], hc⟩
    | cons m ms =>
      simp only [setFraudList] at h
      rcases List.mem_cons.mp h with rfl | h2
      · by_cases hm : m = true
        · subst hm
          exact ⟨r, by simp, Or.inr
            ⟨(if i < types.length then some (types.getD i "") else none), by simp⟩⟩
        · have : m = false := by simpa using hm
          subst this
          exact ⟨r, by simp, Or.inl (by simp)⟩
      · obtain ⟨q, hq, hc⟩ := ih h2
        exact ⟨q, by simp [hq], hc⟩

/-- Projections commute with the fraud pass: if `projOut ∘ set1 = set2 ∘
projIn` pointwise, mapping `projOut` over the written rows equals writing
the projected rows. -/
lemma setFraudList_map {α β γ δ : Type} (set1 : α → Bool → Option String → β)
    (set2 : γ → Bool → Option String → δ) (projIn : α → γ) (projOut : β → δ)
    (hcompat : ∀ r b t, projOut (set1 r b t) = set2 (projIn r) b t)
    (rows : List α) (mask : List Bool) (i : ℕ) (types : List String) :
    (setFraudList set1 rows mask i types).map projOut =
      setFraudList set2 (rows.map projIn) mask i types := by
  induction rows generalizing mask i with
  | nil => cases mask <;> rfl
  | cons r rs ih =>
    cases mask with
    | nil => simp [setFraudList, hcompat, ih]
    | cons m ms =>
      cases m <;> simp [setFraudList, hcompat, ih]

lemma drawInvestAmounts_length (cfg : Config) (rows : List EmpRecF) (g : Rng) :
    (drawInvestAmounts cfg rows g).1.length = rows.length := by
  induction rows generalizing g with
  | nil => rfl
  | cons r rs ih => simp [drawInvestAmounts, ih]

lemma drawAllocs_some_length {n : ℕ} {g g2 : Rng} {als : List (List (String × ℚ))}
    (h : drawAllocs n g = (some als, g2)) : als.length = n := by
  induction n generalizing g als g2 with
  | zero =>
    simp only [drawAllocs] at h
    rw [Prod.mk.injEq, Option.some.injEq] at h
    obtain ⟨rfl, rfl⟩ := h
    rfl
  | succ n ih =>
    simp only [drawAllocs] at h
    rcases h1 : generateAllocation assetClasses g with ⟨o, gA⟩
    rw [h1] at h
    cases o with
    | none => simp at h
    | some a =>
      simp only at h
      rcases h2 : drawAllocs n gA with ⟨o2, gB⟩
      rw [h2] at h
      cases o2 with
      | none => simp at h
      | some as =>
        simp only at h
        rw [Prod.mk.injEq, Option.some.injEq] at h
        obtain ⟨rfl, rfl⟩ := h
        simp [ih h2]

lemma drawAllocs_mem {n : ℕ} {g g2 : Rng} {als : List (List (String × ℚ))}
    (h : drawAllocs n g = (some als, g2)) {a : List (String × ℚ)} (ha : a ∈ als) :
    ∃ g0 g1, generateAllocation assetClasses g0 = (some a, g1) := by
  induction n generalizing g als g2 with
  | zero =>
    simp only [drawAllocs] at h
    rw [Prod.mk.injEq, Option.some.injEq] at h
    obtain ⟨rfl, rfl⟩ := h
    simp at ha
  | succ n ih =>
    simp only [drawAllocs] at h
    rcases h1 : generateAllocation assetClasses g with ⟨o, gA⟩
    rw [h1] at h
    cases o with
    | none => simp at h
    | some a2 =>
      simp only at h
      rcases h2 : drawAllocs n gA with ⟨o2, gB⟩
      rw [h2] at h
      cases o2 with
      | none => simp at h
      | some as =>
        simp only at h
        rw [Prod.mk.injEq, Option.some.injEq] at h
        obtain ⟨rfl, rfl⟩ := h
        rcases List.mem_cons.mp ha with rfl | ha2
        · exact ⟨g, gA, h1⟩
        · exact ih h2 ha2

lemma zip3Port_map_base {rows : List EmpRecF} {invs : List ℚ}
    {als : List (List (String × ℚ))} (h1 : invs.length = rows.length)
    (h2 : als.length = rows.length) :
    (zip3Port rows invs als).map PortRec.base = rows := by
  induction rows generalizing invs als with
  | nil => cases invs <;> cases als <;> simp [zip3Port]
  | cons r rs ih =>
    cases invs with
    | nil => simp at h1
    | cons v vs =>
      cases als with
      | nil => simp at h2
      | cons a as =>
        simp only [zip3Port, List.map_cons]
        rw [ih (by simpa using h1) (by simpa using h2)]
        rfl

lemma zip3Port_mem {rows : List EmpRecF} {invs : List ℚ}
    {als : List (List (String × ℚ))} {p : PortRec}
    (h : p ∈ zip3Port rows invs als) :
    ∃ r v a, r ∈ rows ∧ a ∈ als ∧ p = mkPort r v a := by
  induction rows generalizing invs als with
  | nil => cases invs <;> cases als <;> simp [zip3Port] at h
  | cons r rs ih =>
    cases invs with
    | nil => simp [zip3Port] at h
    | cons v vs =>
      cases als with
      | nil => simp [zip3Port] at h
      | cons a as =>
        simp only [zip3Port] at h
        rcases List.mem_cons.mp h with rfl | h2
        · exact ⟨r, v, a, by simp, by simp, rfl⟩
        · obtain ⟨r2, v2, a2, hr, ha, he⟩ := ih h2
          exact ⟨r2, v2, a2, by simp [hr], by simp [ha], he⟩

lemma addReturnsData_map_base (cfg : Config) (rs : List PortRec) (g : Rng) :
    ((addReturnsData cfg rs g).1).map RetRec.base = rs := by
  induction rs generalizing g with
  | nil => rfl
  | cons r t ih => simp [addReturnsData, ih]

lemma addLifestyleData_map_base (cfg : Config) (rs : List RetRec) (g : Rng) :
    ((addLifestyleData cfg rs g).1).map LifeRec.base = rs := by
  induction rs generalizing g with
  | nil => rfl
  | cons r t ih => simp [addLifestyleData, ih]

/-- A successful portfolio pass maps back onto its input rows. -/
lemma addPortfolioData_map_base {cfg : Config} {rows : List EmpRecF} {g g2 : Rng}
    {ps : List PortRec} (h : addPortfolioData cfg rows g = (some ps, g2)) :
    ps.map PortRec.base = rows := by
  unfold addPortfolioData at h
  dsimp only at h
  rcases hals : drawAllocs rows.length (drawInvestAmounts cfg rows g).2 with ⟨oa, gA⟩
  rw [hals] at h
  cases oa with
  | none => simp at h
  | some als =>
    simp only [Prod.mk.injEq, Option.some.injEq] at h
    obtain ⟨rfl, rfl⟩ := h
    exact zip3Port_map_base (drawInvestAmounts_length cfg rows g)
      (drawAllocs_some_length hals)

/-- Every lifestyle row satisfies the ratio equation against its own stored
spending columns and reported salary. -/
lemma addLifestyleData_ratio {cfg : Config} {rs : List RetRec} {g : Rng}
    {lr : LifeRec} (h : lr ∈ (addLifestyleData cfg rs g).1) :
    lr.lifestyle_ratio =
      roundTo 4 ((lr.luxury_spending + lr.travel_spending) /
        lr.base.base.base.base.reported_salary) := by
  induction rs generalizing g with
  | nil => simp [addLifestyleData] at h
  | cons r t ih =>
    simp only [addLifestyleData] at h
    rcases List.mem_cons.mp h with rfl | h2
    · rfl
    · exact ih h2

/-- Decomposition of a record of a successful `investGenerate` run: it is a
lifestyle row with overwritten fraud columns, and its allocation columns are
the four values of one successful `_generate_allocation` call. -/
lemma investGenerate_mem {cfg : Config} {size : ℕ} {gEmp gEmpF gInvF gGlob : Rng}
    {recs : List LifeRec}
    (h : (investGenerate cfg size gEmp gEmpF gInvF gGlob).1 = some recs)
    {r : LifeRec} (hr : r ∈ recs) :
    ∃ (l : LifeRec) (b : Bool) (t : Option String), r = l.setFraud b t ∧
      (∃ (rl : List RetRec) (gR : Rng), l ∈ (addLifestyleData cfg rl gR).1) ∧
      ∃ (a : List (String × ℚ)) (g0 g1 : Rng),
        generateAllocation assetClasses g0 = (some a, g1) ∧
        l.base.base.stocks = (a.getD 0 ("", 0)).2 ∧
        l.base.base.bonds = (a.getD 1 ("", 0)).2 ∧
        l.base.base.cash = (a.getD 2 ("", 0)).2 ∧
        l.base.base.real_estate = (a.getD 3 ("", 0)).2 := by
  unfold investGenerate at h
  rcases hemp : employmentGenerate cfg size gEmp gEmpF with ⟨emp, gE2, gF2⟩
  rw [hemp] at h
  dsimp only at h
  rcases hport : addPortfolioData cfg emp gGlob with ⟨op, gP⟩
  rw [hport] at h
  cases op with
  | none => simp at h
  | some port =>
    simp only [addFraudIndicators, Option.some.injEq] at h
    subst h
    obtain ⟨l, hl, b, t, rfl⟩ := setFraudList_mem hr
    refine ⟨l, b, t, rfl, ⟨_, _, hl⟩, ?_⟩
    have hret : l.base ∈ (addReturnsData cfg port gP).1 := by
      have h2 := List.mem_map_of_mem LifeRec.base hl
      rwa [addLifestyleData_map_base] at h2
    have hp : l.base.base ∈ port := by
      have h3 := List.mem_map_of_mem RetRec.base hret
      rwa [addReturnsData_map_base] at h3
    -- open the portfolio pass
    unfold addPortfolioData at hport
    dsimp only at hport
    rcases hals : drawAllocs emp.length (drawInvestAmounts cfg emp gGlob).2
      with ⟨oa, gA⟩
    rw [hals] at hport
    cases oa with
    | none => simp at hport
    | some als =>
      simp only [Prod.mk.injEq, Option.some.injEq] at hport
      obtain ⟨rfl, rfl⟩ := hport
      obtain ⟨r0, v, a, hr0, ha, he⟩ := zip3Port_mem hp
      obtain ⟨g0, g1, hgen⟩ := drawAllocs_mem hals ha
      exact ⟨a, g0, g1, hgen, by rw [he]; rfl, by rw [he]; rfl, by rw [he]; rfl,
        by rw [he]; rfl⟩

/-! ## Claim C1: allocation sum invariant -/

/-- **C1**: in every record of a dataset returned by
`InvestmentDataGenerator.generate`, the four allocation columns sum to 1.0
within an absolute tolerance of `1e-4`, for every configuration, size and
random stream. -/
theorem investment_allocation_sum (cfg : Config) (size : ℕ)
    (gEmp gEmpF gInvF gGlob : Rng) (recs : List LifeRec)
    (h : (investGenerate cfg size gEmp gEmpF gInvF gGlob).1 = some recs) :
    ∀ r ∈ recs, |r.stocks + r.bonds + r.cash + r.real_estate - 1| ≤ 1 / 10000 := by
  intro r hr
  obtain ⟨l, b, t, rfl, -, a, g0, g1, hgen, hs, hb, hc, hre⟩ := investGenerate_mem h hr
  have hsum := generateAllocation_sum hgen
  obtain ⟨g2, hat⟩ :=
    allocRetry_some (show allocRetry 10 assetClasses g0 = (some a, g1) from hgen)
  obtain ⟨v0, v1, v2, v3, rfl, -⟩ := allocAttempt_classes hat
  simp only [List.getD_cons_zero, List.getD_cons_succ] at hs hb hc hre
  have e : sumAlloc [("stocks", v0), ("bonds", v1), ("cash", v2), ("real_estate", v3)]
      = v0 + v1 + v2 + v3 := by
    simp only [sumAlloc, List.map_cons, List.map_nil, List.sum_cons, List.sum_nil]
    ring
  rw [e] at hsum
  simp only [LifeRec.stocks, LifeRec.bonds, LifeRec.cash, LifeRec.real_estate,
    LifeRec.setFraud]
  rw [hs, hb, hc, hre]
  exact hsum

/-! ## Claim C2: allocation bounds invariant -/

/-- **C2**: in every record of a dataset returned by
`InvestmentDataGenerator.generate`, each allocation column lies within its
configured `[min, max]` range to within tolerance `1e-4`, including records
whose largest allocation was moved by the numerical-stabilization step of
`_generate_allocation`. -/
theorem investment_allocation_bounds (cfg : Config) (size : ℕ)
    (gEmp gEmpF gInvF gGlob : Rng) (recs : List LifeRec)
    (h : (investGenerate cfg size gEmp gEmpF gInvF gGlob).1 = some recs) :
    ∀ r ∈ recs,
      2/5 - ATOL ≤ r.stocks ∧ r.stocks ≤ 4/5 + ATOL ∧
      1/10 - ATOL ≤ r.bonds ∧ r.bonds ≤ 2/5 + ATOL ∧
      1/20 - ATOL ≤ r.cash ∧ r.cash ≤ 1/5 + ATOL ∧
      0 - ATOL ≤ r.real_estate ∧ r.real_estate ≤ 1/5 + ATOL := by
  intro r hr
  obtain ⟨l, b, t, rfl, -, a, g0, g1, hgen, hs, hb, hc, hre⟩ := investGenerate_mem h hr
  obtain ⟨g2, hat⟩ :=
    allocRetry_some (show allocRetry 10 assetClasses g0 = (some a, g1) from hgen)
  obtain ⟨v0, v1, v2, v3, rfl, hbd⟩ := allocAttempt_classes hat
  simp only [List.getD_cons_zero, List.getD_cons_succ] at hs hb hc hre
  simp only [LifeRec.stocks, LifeRec.bonds, LifeRec.cash, LifeRec.real_estate,
    LifeRec.setFraud]
  rw [hs, hb, hc, hre]
  exact hbd

/-! ## Claim C6: the lifestyle ratio is a recomputed derived column -/

/-- **C6**: in every record of a dataset returned by
`InvestmentDataGenerator.generate`, `lifestyle_ratio` equals
`round((luxury_spending + travel_spending) / reported_salary, 4)` recomputed
from the record's own stored columns (the record's reported income is its
`reported_salary` column in this pipeline). -/
theorem lifestyle_ratio_recomputed (cfg : Config) (size : ℕ)
    (gEmp gEmpF gInvF gGlob : Rng) (recs : List LifeRec)
    (h : (investGenerate cfg size gEmp gEmpF gInvF gGlob).1 = some recs) :
    ∀ r ∈ recs, r.lifestyle_ratio =
      roundTo 4 ((r.luxury_spending + r.travel_spending) / r.reported_salary) := by
  intro r hr
  obtain ⟨l, b, t, rfl, ⟨rl, gR, hl⟩, -⟩ := investGenerate_mem h hr
  have hratio := addLifestyleData_ratio hl
  simpa [LifeRec.setFraud, LifeRec.reported_salary] using hratio

/-! ## Concrete configurations and streams for witnesses and
counterexamples -/

/-- A stream whose first values are the given list (0 afterwards). -/
def streamOf (l : List ℚ) : Rng := ⟨fun n => l.getD n 0, 0⟩

/-- A small concrete configuration (one industry, one experience level with
a degenerate salary range so that values are pinned down; rates and
probabilities as in the repository's controller defaults). -/
def cfgW : Config where
  industry_data := [⟨"Tech", [("entry", 50000, 50000)]⟩]
  experience_levels := [⟨"entry", 1, (1/20, 3/20), (1/10, 1/10), (1/20, 1/20)⟩]
  normal_range := ⟨1, 1, 1⟩
  low_outlier := ⟨0, 2/5, 3/5⟩
  high_outlier := ⟨0, 3/2, 2⟩
  fraud_probability := 1/10
  fraud_types := [("salary_misreporting", 2/5), ("suspicious_lifestyle", 3/10),
    ("rapid_transactions", 3/10)]
  asset_returns := [("stocks", 1/10, 3/20), ("bonds", 1/20, 1/20),
    ("cash", 1/50, 1/100), ("real_estate", 7/100, 1/10)]

/-- Employment-stage stream for one record: industry, level, then base,
band and ratio draws. -/
def gEmpW : Rng := streamOf [0, 0, 0, 0, 0]

/-- Fraud stream that flags nothing (first draw `1/2 ≥ 0.1`). -/
def gNoFraudW : Rng := streamOf [1/2]

/-- Global-stream values for one investment record: investment-rate draw,
three allocation draws (yielding `0.6/0.2/0.1/0.1`), four return draws, two
lifestyle draws. -/
def gGlobW : Rng := streamOf [0, 1/2, 2/5, 1/3, 0, 0, 0, 0, 0, 0]

/-- Literal rationals do not reduce in the kernel (their normalization uses
well-founded recursion), so concrete runs are evaluated by `norm_num` with
the definitions in the simp set.  Floors of unit draws evaluate with this
lemma. -/
lemma floor_unit {q : ℚ} (h0 : 0 ≤ q) (h1 : q < 1) : ⌊q⌋ = 0 :=
  Int.floor_eq_zero_iff.mpr ⟨h0, h1⟩

lemma fract_unit {q : ℚ} (h0 : 0 ≤ q) (h1 : q < 1) : Int.fract q = q :=
  Int.fract_eq_self.mpr ⟨h0, h1⟩

lemma strNe1 : (("bonds" : String) = "stocks") = False := eq_false (by decide)

lemma strNe2 : (("cash" : String) = "stocks") = False := eq_false (by decide)

lemma strNe3 : (("cash" : String) = "bonds") = False := eq_false (by decide)

lemma strNe4 : (("real_estate" : String) = "stocks") = False := eq_false (by decide)

lemma strNe5 : (("real_estate" : String) = "bonds") = False := eq_false (by decide)

lemma strNe6 : (("real_estate" : String) = "cash") = False := eq_false (by decide)

/-- The single record produced by the concrete `investGenerate` run at
`cfgW` with the streams above. -/
def wRec : LifeRec :=
  ⟨⟨⟨⟨⟨"Tech", "entry", 50000, 50000⟩, false, some "none"⟩,
      2500, 3/5, 1/5, 1/10, 1/10⟩, 79/1000, 5395/2⟩, 5000, 2500, 3/20, false⟩

set_option maxHeartbeats 2000000 in
/-- The concrete investment run evaluates to the single record `wRec`. -/
lemma wRun_eq : (investGenerate cfgW 1 gEmpW gNoFraudW gNoFraudW gGlobW).1 = some [wRec] := by
  norm_num [wRec, investGenerate, employmentGenerate, drawN, addSalaryData, drawSalary,
    salaryRangeOf, lookupQQ, cfgW, gEmpW, gNoFraudW, gGlobW, streamOf, Rng.next,
    Rng.uniform, Rng.choice, Rng.choiceUniform, pickCum, salaryBands, levelProbs,
    industryNames, addFraudIndicators, setFraudList, normProbs, roundTo, round_ofNat,
    round_zero, round_one, Int.floor_zero, floor_unit, addPortfolioData,
    drawInvestAmounts, investRateOf, drawAllocs, generateAllocation, allocRetry,
    allocAttempt, allocAssign, boundsOk, sumAlloc, argmaxIdx, adjustAt, npIsClose,
    ATOL, assetClasses, mkPort, zip3Port, addReturnsData, returnSum, allocOf,
    Rng.normal, addLifestyleData, luxuryRangeOf, travelRangeOf, LifeRec.setFraud,
    strNe1, strNe2, strNe3, strNe4, strNe5, strNe6]

/-- Witness for C1: the concrete run returns one record whose allocation
columns sum to 1 within `1e-4`. -/
theorem investment_allocation_sum_witness :
    |wRec.stocks + wRec.bonds + wRec.cash + wRec.real_estate - 1| ≤ 1 / 10000 :=
  investment_allocation_sum cfgW 1 gEmpW gNoFraudW gNoFraudW gGlobW [wRec]
    wRun_eq wRec (by simp)

/-- Witness for C2: the concrete run's record respects all configured
allocation bounds within `1e-4`. -/
theorem investment_allocation_bounds_witness :
    2/5 - ATOL ≤ wRec.stocks ∧ wRec.stocks ≤ 4/5 + ATOL ∧
    1/10 - ATOL ≤ wRec.bonds ∧ wRec.bonds ≤ 2/5 + ATOL ∧
    1/20 - ATOL ≤ wRec.cash ∧ wRec.cash ≤ 1/5 + ATOL ∧
    0 - ATOL ≤ wRec.real_estate ∧ wRec.real_estate ≤ 1/5 + ATOL :=
  investment_allocation_bounds cfgW 1 gEmpW gNoFraudW gNoFraudW gGlobW [wRec]
    wRun_eq wRec (by simp)

/-- Witness for C6: the concrete run's record has its lifestyle ratio equal
to the recomputed rounded quotient. -/
theorem lifestyle_ratio_recomputed_witness :
    wRec.lifestyle_ratio =
      roundTo 4 ((wRec.luxury_spending + wRec.travel_spending) / wRec.reported_salary) :=
  lifestyle_ratio_recomputed cfgW 1 gEmpW gNoFraudW gNoFraudW gGlobW [wRec]
    wRun_eq wRec (by simp)

/-! ## Claim C10: the investment column passes are frame-preserving -/

/-- **C10**: each investment-stage pass (`_add_portfolio_data`,
`_add_returns_data`, `_add_lifestyle_indicators`) preserves row count, row
order and the values of all previously present columns: mapping each output
row to its embedded input row recovers the input list exactly; the pass only
appends new columns. -/
theorem investment_passes_frame :
    (∀ (cfg : Config) (rows : List EmpRecF) (g g2 : Rng) (ps : List PortRec),
      addPortfolioData cfg rows g = (some ps, g2) → ps.map PortRec.base = rows) ∧
    (∀ (cfg : Config) (rs : List PortRec) (g : Rng),
      ((addReturnsData cfg rs g).1).map RetRec.base = rs) ∧
    (∀ (cfg : Config) (rs : List RetRec) (g : Rng),
      ((addLifestyleData cfg rs g).1).map LifeRec.base = rs) :=
  ⟨fun _ _ _ _ _ h => addPortfolioData_map_base h,
   addReturnsData_map_base, addLifestyleData_map_base⟩

/-- The employment record of the concrete run. -/
def wEmpRec : EmpRecF := ⟨⟨"Tech", "entry", 50000, 50000⟩, false, some "none"⟩

/-- The portfolio row the concrete run builds from it. -/
def wPortRec : PortRec := ⟨wEmpRec, 2500, 3/5, 1/5, 1/10, 1/10⟩

set_option maxHeartbeats 1000000 in
lemma wPort_eq : (addPortfolioData cfgW [wEmpRec] gGlobW).1 = some [wPortRec] := by
  norm_num [wEmpRec, wPortRec, addPortfolioData, drawInvestAmounts, investRateOf, cfgW,
    gGlobW, streamOf, Rng.next, Rng.uniform, drawAllocs, generateAllocation, allocRetry,
    allocAttempt, allocAssign, boundsOk, sumAlloc, argmaxIdx, adjustAt, npIsClose, ATOL,
    assetClasses, mkPort, zip3Port, drawN, roundTo, round_ofNat, round_zero, round_one,
    Int.floor_zero, floor_unit]

/-- Witness for C10: the portfolio pass of the concrete run maps back to its
input employment rows. -/
theorem investment_passes_frame_witness :
    [wPortRec].map PortRec.base = [wEmpRec] :=
  investment_passes_frame.1 cfgW [wEmpRec] gGlobW
    (addPortfolioData cfgW [wEmpRec] gGlobW).2 [wPortRec]
    (by rw [← wPort_eq])

/-! ## Claim C4: the `(is_fraudulent, fraud_type)` pair -/

lemma strNe7 : (("senior" : String) = "entry") = False := eq_false (by decide)

/-- A non-entry row that the controller fraud pass flags and sends into the
experience-inflation branch. -/
def cInflIn : CEmpRec := ⟨"Tech", "senior", 50000⟩

/-- Stream for it: first draw `1/20 < 0.1` flags the row, second draw
`7/10 ≥ 0.5` selects experience inflation. -/
def gInfl : Rng := streamOf [1/20, 7/10]

/-- The resulting row: flagged fraudulent, `fraud_type` still `"none"`. -/
def cInflOut : CEmpRecF := ⟨"Tech", "senior", 50000, 50000, true, "none"⟩

lemma cInfl_run : (addFraudScenariosC [cInflIn] gInfl).1 = [cInflOut] := by
  norm_num [addFraudScenariosC, cInflIn, cInflOut, gInfl, streamOf, Rng.next,
    Rng.uniform, floor_unit, strNe7]

/-- Fraud stream for a two-record components run: unit draws `1/2` (row 0
not flagged) and `1/20 < 0.1` (row 1 flagged), then one type draw `1/5`
(the single flagged row gives `k = 1` drawn type, carried at label 0). -/
def gFraudC4 : Rng := streamOf [1/2, 1/20, 1/5]

/-- The second output row of that run: flagged fraudulent, but its label 1
is not among the assigned-types labels `0..k-1 = {0}`, so the pandas
alignment leaves its `fraud_type` missing (`NA`, modelled `none`). -/
def c4RecNA : EmpRecF := ⟨⟨"Tech", "entry", 50000, 50000⟩, true, none⟩

set_option maxHeartbeats 1000000 in
lemma c4_run : (employmentGenerate cfgW 2 gEmpW gFraudC4).1 = [wEmpRec, c4RecNA] := by
  norm_num [wEmpRec, c4RecNA, employmentGenerate, drawN, addSalaryData, drawSalary,
    salaryRangeOf, lookupQQ, cfgW, gEmpW, gFraudC4, streamOf, Rng.next, Rng.uniform,
    Rng.choice, Rng.choiceUniform, pickCum, salaryBands, levelProbs, industryNames,
    addFraudIndicators, setFraudList, normProbs, roundTo, round_ofNat, round_zero,
    round_one, Int.floor_zero, floor_unit, fract_unit]

/-- **Counterexample to C4**, both fraud passes.  Components
(`FraudScenarioGenerator.add_fraud_indicators`): `data.loc[fraud_indices,
'fraud_type'] = pd.Series(assigned_types, ...)` aligns the Series' default
labels `0..k-1` with the flagged row labels, so with rows `{0: unflagged,
1: flagged}` we get `k = 1` and the flagged row at label `1` ends with
`is_fraudulent = true` and a missing (`NA`) `fraud_type` — neither
`"none"` nor a named type.  Controller
(`EmploymentGenerator.add_fraud_scenarios`): a flagged non-entry row drawn
into the experience-inflation branch keeps `fraud_type = "none"` while
`is_fraudulent = true`.  Either record refutes the claimed iff. -/
theorem fraud_pair_iff_counterexample :
    ((employmentGenerate cfgW 2 gEmpW gFraudC4).1 = [wEmpRec, c4RecNA] ∧
     c4RecNA.is_fraudulent = true ∧ c4RecNA.fraud_type = none ∧
     ¬ ((∃ t, c4RecNA.fraud_type = some t ∧ t ≠ "none") ↔
        c4RecNA.is_fraudulent = true)) ∧
    ((addFraudScenariosC [cInflIn] gInfl).1 = [cInflOut] ∧
     cInflOut.is_fraudulent = true ∧ cInflOut.fraud_type = "none" ∧
     ¬ ((cInflOut.fraud_type ≠ "none") ↔ (cInflOut.is_fraudulent = true))) :=
  ⟨⟨c4_run, rfl, rfl, by simp [c4RecNA]⟩, ⟨cInfl_run, rfl, rfl, by decide⟩⟩

/-- **C4 (amended)**: the forward direction holds in both fraud passes — a
record carrying a named fraud type (`some t` with `t ≠ "none"`) is always
flagged `is_fraudulent`, and in the components pipeline an unflagged record
always carries `fraud_type = "none"` — while the converse fails: a flagged
record's `fraud_type` can be missing (`NA`, components label alignment) or
`"none"` (controller experience-inflation branch). -/
theorem fraud_type_implies_flag :
    (∀ (cfg : Config) (size : ℕ) (gE gF : Rng),
      ∀ r ∈ (employmentGenerate cfg size gE gF).1,
        (∀ t, r.fraud_type = some t → t ≠ "none" → r.is_fraudulent = true) ∧
        (r.is_fraudulent = false → r.fraud_type = some "none")) ∧
    (∀ (rows : List CEmpRec) (g : Rng),
      ∀ r ∈ (addFraudScenariosC rows g).1,
        r.fraud_type ≠ "none" → r.is_fraudulent = true) := by
  constructor
  · intro cfg size gE gF r hr
    simp only [employmentGenerate, addFraudIndicators] at hr
    obtain ⟨r0, hr0, hc⟩ := setFraudList_mem_cases hr
    rcases hc with rfl | ⟨t0, rfl⟩
    · refine ⟨fun t ht hne => ?_, fun _ => rfl⟩
      dsimp only at ht
      exact absurd (Option.some.inj ht).symm hne
    · exact ⟨fun _ _ _ => rfl, fun h => nomatch h⟩
  · intro rows
    induction rows with
    | nil => intro g r hr; simp [addFraudScenariosC] at hr
    | cons a rs ih =>
      intro g r hr
      simp only [addFraudScenariosC] at hr
      split at hr
      · split at hr
        · rcases List.mem_cons.mp hr with rfl | h2
          · intro _; rfl
          · exact ih _ r h2
        · split at hr
          · rcases List.mem_cons.mp hr with rfl | h2
            · intro _; rfl
            · exact ih _ r h2
          · rcases List.mem_cons.mp hr with rfl | h2
            · intro _; rfl
            · exact ih _ r h2
      · rcases List.mem_cons.mp hr with rfl | h2
        · intro hne; exact absurd rfl hne
        · exact ih _ r h2

/-- A row sent into the salary-misreporting branch (draws `1/20 < 0.1`,
`1/4 < 0.5`, ratio draw `0` giving ratio `0.7`). -/
def gMis : Rng := streamOf [1/20, 1/4, 0]

/-- Its output row: `reported_salary = round(50000 * 0.7, 2) = 35000`. -/
def cMisOut : CEmpRecF := ⟨"Tech", "senior", 50000, 35000, true, "salary_misreporting"⟩

lemma cMis_run : (addFraudScenariosC [cInflIn] gMis).1 = [cMisOut] := by
  norm_num [addFraudScenariosC, cInflIn, cMisOut, gMis, streamOf, Rng.next,
    Rng.uniform, floor_unit, roundTo, round_ofNat]

/-! ## Claim C5: salary misreporting and `reported_salary` -/

/-- Fraud stream that flags the single row (`1/20 < 0.1`) and then picks
`salary_misreporting` from the normalized type distribution
(`1/5 < 2/5`). -/
def gFraudC5 : Rng := streamOf [1/20, 1/5]

/-- The record the components-based employment generator then produces:
labelled `salary_misreporting`, `reported_salary` untouched. -/
def c5Rec : EmpRecF := ⟨⟨"Tech", "entry", 50000, 50000⟩, true, some "salary_misreporting"⟩

lemma c5_run : (employmentGenerate cfgW 1 gEmpW gFraudC5).1 = [c5Rec] := by
  norm_num [c5Rec, employmentGenerate, drawN, addSalaryData, drawSalary, salaryRangeOf,
    lookupQQ, cfgW, gEmpW, gFraudC5, streamOf, Rng.next, Rng.uniform, Rng.choice,
    Rng.choiceUniform, pickCum, salaryBands, levelProbs, industryNames,
    addFraudIndicators, setFraudList, normProbs, roundTo, round_ofNat, round_zero,
    round_one, Int.floor_zero, floor_unit, fract_unit]

/-- Witness for the amended C4, exercising both parts: the components
record `c5Rec` carries the named type `salary_misreporting` and is flagged;
the controller record `cMisOut` likewise. -/
theorem fraud_type_implies_flag_witness :
    c5Rec.is_fraudulent = true ∧ cMisOut.is_fraudulent = true :=
  ⟨(fraud_type_implies_flag.1 cfgW 1 gEmpW gFraudC5 c5Rec
      (by rw [c5_run]; simp)).1 "salary_misreporting" rfl (by decide),
   fraud_type_implies_flag.2 [cInflIn] gMis cMisOut
     (by rw [cMis_run]; simp) (by decide)⟩

/-- **Counterexample to C5**: `FraudScenarioGenerator.add_fraud_indicators`
(components.py) only labels records — it never rewrites `reported_salary` —
so a generated record can carry `fraud_type = "salary_misreporting"` with
`reported_salary` equal to, not strictly below, `salary`. -/
theorem salary_misreporting_counterexample :
    (employmentGenerate cfgW 1 gEmpW gFraudC5).1 = [c5Rec] ∧
    c5Rec.fraud_type = some "salary_misreporting" ∧
    c5Rec.base.reported_salary = c5Rec.base.salary ∧
    ¬ (c5Rec.base.reported_salary < c5Rec.base.salary) :=
  ⟨c5_run, rfl, rfl, lt_irrefl _⟩

/-- **C5 (amended)**: in the components-based pipeline `reported_salary`
always equals `salary`, whatever the fraud label; in the controller
employment generator's fraud pass, a record labelled `salary_misreporting`
has `reported_salary = round(salary * r, 2)` with `r` drawn from
`[0.7, 0.9]`, hence strictly below `salary` whenever salaries are at least 1,
and every other record keeps `reported_salary = salary`. -/
theorem salary_misreporting_amended :
    (∀ (cfg : Config) (size : ℕ) (gE gF : Rng),
      ∀ r ∈ (employmentGenerate cfg size gE gF).1,
        r.base.reported_salary = r.base.salary) ∧
    (∀ (rows : List CEmpRec) (g : Rng), (∀ x ∈ rows, 1 ≤ x.salary) →
      ∀ r ∈ (addFraudScenariosC rows g).1,
        (r.fraud_type = "salary_misreporting" → r.reported_salary < r.salary) ∧
        (r.fraud_type ≠ "salary_misreporting" → r.reported_salary = r.salary)) := by
  constructor
  · intro cfg size gE gF r hr
    simp only [employmentGenerate, addFraudIndicators] at hr
    obtain ⟨r0, hr0, b, t, rfl⟩ := setFraudList_mem hr
    obtain ⟨p, hp, g1, rfl⟩ := addSalaryData_mem hr0
    rfl
  · intro rows
    induction rows with
    | nil => intro g hs r hr; simp [addFraudScenariosC] at hr
    | cons a rs ih =>
      intro g hs r hr
      have hs1 : 1 ≤ a.salary := hs a (by simp)
      have hsrest : ∀ x ∈ rs, 1 ≤ x.salary := fun x hx => hs x (by simp [hx])
      simp only [addFraudScenariosC] at hr
      split at hr
      · split at hr
        · rcases List.mem_cons.mp hr with rfl | h2
          · refine ⟨fun _ => ?_, fun hne => absurd rfl hne⟩
            dsimp only
            have hrange := Rng.uniform_mem (g.next.2.next.2)
              (show (7:ℚ)/10 ≤ 9/10 by norm_num)
            have herr := roundTo_sub_self_abs 2
              (a.salary * (g.next.2.next.2.uniform (7/10) (9/10)).1)
            rw [abs_le] at herr
            have hle : a.salary * (g.next.2.next.2.uniform (7/10) (9/10)).1 ≤
                a.salary * (9/10) :=
              mul_le_mul_of_nonneg_left hrange.2 (by linarith)
            have h2b := herr.2
            norm_num at h2b
            linarith
          · exact ih _ hsrest r h2
        · split at hr
          · rcases List.mem_cons.mp hr with rfl | h2
            · exact ⟨fun h => by simp at h, fun _ => rfl⟩
            · exact ih _ hsrest r h2
          · rcases List.mem_cons.mp hr with rfl | h2
            · exact ⟨fun h => by simp at h, fun _ => rfl⟩
            · exact ih _ hsrest r h2
      · rcases List.mem_cons.mp hr with rfl | h2
        · exact ⟨fun h => by simp at h, fun _ => rfl⟩
        · exact ih _ hsrest r h2

/-- Witness for the amended C5 at the concrete salary-misreporting run:
`35000 < 50000`. -/
theorem salary_misreporting_amended_witness : cMisOut.reported_salary < cMisOut.salary :=
  (salary_misreporting_amended.2 [cInflIn] gMis
    (by intro x hx; simp only [List.mem_singleton] at hx; subst hx; norm_num [cInflIn])
    cMisOut (by rw [cMis_run]; simp)).1 rfl

/-! ## Claim C7: determinism across instances with equal seed

`DataComponent.__init__` seeds one `RandomState` per generator object and
`FraudScenarioGenerator.__init__` another, so two instances with the same
configuration have identical instance streams (`gEmp`, `gEmpF`, `gInvF`).
But the investment passes call the module-level `np.random.uniform` /
`np.random.normal` (e.g. `_add_portfolio_data`, line 172), which read the
process-global numpy state (`gGlob`) — state that the second instance does
not recreate.  Hence byte-identical outputs are not guaranteed. -/

/-- Chain of frame facts: the base employment columns of every lifestyle row
are exactly the employment rows. -/
lemma lifeList_empRec (cfg : Config) {port : List PortRec} {emp : List EmpRecF}
    (hport : port.map PortRec.base = emp) (gR gL : Rng) :
    ((addLifestyleData cfg (addReturnsData cfg port gR).1 gL).1).map
      (fun l => l.base.base.base.base) = emp.map EmpRecF.base := by
  have e1 := addLifestyleData_map_base cfg (addReturnsData cfg port gR).1 gL
  have e2 := addReturnsData_map_base cfg port gR
  have e3 : (((((addLifestyleData cfg (addReturnsData cfg port gR).1 gL).1).map
      LifeRec.base).map RetRec.base).map PortRec.base).map EmpRecF.base =
      emp.map EmpRecF.base := by
    rw [e1, e2, hport]
  simpa [List.map_map, Function.comp] using e3

/-- **C7 (amended)**: two `generate` runs that share the configuration and
all seed-derived streams, but see different process-global numpy streams,
agree on the whole employment stage — the base employment columns and the
final fraud flags of each record coincide position by position — while the
investment-stage columns may differ (they consume the global stream).  Full
byte-identity holds only when the global stream is also equal, since the
embedding is a pure function of `(cfg, size, gEmp, gEmpF, gInvF, gGlob)`. -/
theorem determinism_amended (cfg : Config) (size : ℕ)
    (gEmp gEmpF gInvF gG1 gG2 : Rng) (o1 o2 : List LifeRec)
    (h1 : (investGenerate cfg size gEmp gEmpF gInvF gG1).1 = some o1)
    (h2 : (investGenerate cfg size gEmp gEmpF gInvF gG2).1 = some o2) :
    o1.map LifeRec.empF = o2.map LifeRec.empF := by
  unfold investGenerate at h1 h2
  rcases hemp : employmentGenerate cfg size gEmp gEmpF with ⟨emp, gE2, gF2⟩
  rw [hemp] at h1 h2
  dsimp only at h1 h2
  rcases hp1 : addPortfolioData cfg emp gG1 with ⟨op1, gP1⟩
  rw [hp1] at h1
  rcases hp2 : addPortfolioData cfg emp gG2 with ⟨op2, gP2⟩
  rw [hp2] at h2
  cases op1 with
  | none => simp at h1
  | some port1 =>
    cases op2 with
    | none => simp at h2
    | some port2 =>
      simp only [addFraudIndicators, Option.some.injEq] at h1 h2
      subst h1
      subst h2
      have hb1 := addPortfolioData_map_base hp1
      have hb2 := addPortfolioData_map_base hp2
      have hc1 := lifeList_empRec cfg hb1 gP1
        (addReturnsData cfg port1 gP1).2
      have hc2 := lifeList_empRec cfg hb2 gP2
        (addReturnsData cfg port2 gP2).2
      have hlen1 : ((addLifestyleData cfg (addReturnsData cfg port1 gP1).1
          (addReturnsData cfg port1 gP1).2).1).length = emp.length := by
        have := congrArg List.length hc1
        simpa using this
      have hlen2 : ((addLifestyleData cfg (addReturnsData cfg port2 gP2).1
          (addReturnsData cfg port2 gP2).2).1).length = emp.length := by
        have := congrArg List.length hc2
        simpa using this
      rw [setFraudList_map LifeRec.setFraud (fun (e : EmpRec) b t => EmpRecF.mk e b t)
        (fun l => l.base.base.base.base) LifeRec.empF (fun _ _ _ => rfl),
        setFraudList_map LifeRec.setFraud (fun (e : EmpRec) b t => EmpRecF.mk e b t)
        (fun l => l.base.base.base.base) LifeRec.empF (fun _ _ _ => rfl),
        hc1, hc2, hlen1, hlen2]

/-- Second global stream: the investment-rate draw is `1/2` instead of `0`,
the remaining draws are as in `gGlobW`. -/
def gGlob2W : Rng := streamOf [1/2, 1/2, 2/5, 1/3, 0, 0, 0, 0, 0, 0]

/-- The record of the second run: identical except
`annual_investment = 5000` (rate `0.1` instead of `0.05`). -/
def wRec2 : LifeRec :=
  ⟨⟨⟨⟨⟨"Tech", "entry", 50000, 50000⟩, false, some "none"⟩,
      5000, 3/5, 1/5, 1/10, 1/10⟩, 79/1000, 10790/2⟩, 5000, 2500, 3/20, false⟩

set_option maxHeartbeats 2000000 in
lemma wRun2_eq : (investGenerate cfgW 1 gEmpW gNoFraudW gNoFraudW gGlob2W).1 = some [wRec2] := by
  norm_num [wRec2, investGenerate, employmentGenerate, drawN, addSalaryData, drawSalary,
    salaryRangeOf, lookupQQ, cfgW, gEmpW, gNoFraudW, gGlob2W, streamOf, Rng.next,
    Rng.uniform, Rng.choice, Rng.choiceUniform, pickCum, salaryBands, levelProbs,
    industryNames, addFraudIndicators, setFraudList, normProbs, roundTo, round_ofNat,
    round_zero, round_one, Int.floor_zero, floor_unit, addPortfolioData,
    drawInvestAmounts, investRateOf, drawAllocs, generateAllocation, allocRetry,
    allocAttempt, allocAssign, boundsOk, sumAlloc, argmaxIdx, adjustAt, npIsClose,
    ATOL, assetClasses, mkPort, zip3Port, addReturnsData, returnSum, allocOf,
    Rng.normal, addLifestyleData, luxuryRangeOf, travelRangeOf, LifeRec.setFraud,
    strNe1, strNe2, strNe3, strNe4, strNe5, strNe6]

/-- **Counterexample to C7**: two generator instances with identical
configuration and seed (hence identical instance streams) but different
process-global numpy state produce different datasets — here the
`annual_investment` column differs (2500 versus 5000), because the
investment rate is drawn from the global `np.random`, not from the
instance's seeded generator. -/
theorem determinism_counterexample :
    (investGenerate cfgW 1 gEmpW gNoFraudW gNoFraudW gGlobW).1 = some [wRec] ∧
    (investGenerate cfgW 1 gEmpW gNoFraudW gNoFraudW gGlob2W).1 = some [wRec2] ∧
    wRec.annual_investment = 2500 ∧ wRec2.annual_investment = 5000 ∧
    wRec ≠ wRec2 := by
  refine ⟨wRun_eq, wRun2_eq, rfl, rfl, fun h => ?_⟩
  have := congrArg LifeRec.annual_investment h
  norm_num [wRec, wRec2, LifeRec.annual_investment] at this

/-- Witness for the amended C7: the two concrete runs above agree on their
employment-stage projections. -/
theorem determinism_amended_witness :
    [wRec].map LifeRec.empF = [wRec2].map LifeRec.empF :=
  determinism_amended cfgW 1 gEmpW gNoFraudW gNoFraudW gGlobW gGlob2W [wRec] [wRec2]
    wRun_eq wRun2_eq

/-! ## Claim C8: the scenario-example run -/

/-- The scenario-example configuration: industries `["Tech"]`, one
experience level `entry` with probability 1, salary range `"50000-70000"`,
`normal_range = {probability 1, ratios [0.95, 1.05]}`, the outlier bands
with probability 0, fraud probability 0. -/
def cfgC8 : Config where
  industry_data := [⟨"Tech", [("entry", 50000, 70000)]⟩]
  experience_levels := [⟨"entry", 1, (1/20, 3/20), (0, 1/10), (1/50, 2/25)⟩]
  normal_range := ⟨1, 19/20, 21/20⟩
  low_outlier := ⟨0, 2/5, 3/5⟩
  high_outlier := ⟨0, 3/2, 2⟩
  fraud_probability := 0
  fraud_types := [("salary_misreporting", 2/5), ("suspicious_lifestyle", 3/10),
    ("rapid_transactions", 3/10)]
  asset_returns := [("stocks", 1/10, 3/20), ("bonds", 1/20, 1/20),
    ("cash", 1/50, 1/100), ("real_estate", 7/100, 1/10)]

lemma choiceUniform_singleton {α : Type} (g : Rng) (a d : α) :
    (g.choiceUniform [a] d).1 = a := by
  have h0 := g.next_nonneg
  have h1 := g.next_lt_one
  show ([a].getD (⌊g.next.1 * (([a] : List α).length : ℚ)⌋).toNat d) = a
  have hlen : (([a] : List α).length : ℚ) = 1 := by simp
  rw [hlen, mul_one, floor_unit h0 h1]
  rfl

lemma pickCum_head_one {α : Type} (d x : α) (rest : List (α × ℚ)) {u : ℚ}
    (hu : u < 1) : pickCum d ((x, 1) :: rest) u = x := by
  simp [pickCum, hu]

lemma roundTo_mono (d : ℕ) {x y : ℚ} (h : x ≤ y) : roundTo d x ≤ roundTo d y := by
  unfold roundTo
  have hp : (0 : ℚ) ≤ 10 ^ d := by positivity
  have hm : round (x * 10 ^ d) ≤ round (y * 10 ^ d) := by
    rw [round_eq, round_eq]
    exact Int.floor_le_floor (by nlinarith)
  have hc : ((round (x * 10 ^ d) : ℤ) : ℚ) ≤ ((round (y * 10 ^ d) : ℤ) : ℚ) := by
    exact_mod_cast hm
  exact div_le_div_of_nonneg_right hc hp

/-- The salary draw at the scenario configuration lands in
`[47500, 73500] = [50000·0.95, 70000·1.05]`. -/
lemma drawSalaryC8_bounds (g : Rng) :
    47500 ≤ (drawSalary cfgC8 "Tech" "entry" g).1 ∧
      (drawSalary cfgC8 "Tech" "entry" g).1 ≤ 73500 := by
  have hsr : salaryRangeOf cfgC8 "Tech" "entry" = (50000, 70000) := rfl
  unfold drawSalary
  rw [hsr]
  dsimp only
  have hbase := g.uniform_mem (show (50000 : ℚ) ≤ 70000 by norm_num)
  have hband : ((g.uniform 50000 70000).2.choice (salaryBands cfgC8)
      cfgC8.normal_range).1 = cfgC8.normal_range := by
    unfold Rng.choice
    dsimp only
    have hu1 := ((g.uniform 50000 70000).2).next_lt_one
    exact pickCum_head_one _ _ _ hu1
  rw [hband]
  have hratio := ((g.uniform 50000 70000).2.choice (salaryBands cfgC8)
      cfgC8.normal_range).2.uniform_mem
      (show cfgC8.normal_range.min_ratio ≤ cfgC8.normal_range.max_ratio by norm_num [cfgC8])
  have hlo : (19 : ℚ)/20 = cfgC8.normal_range.min_ratio := rfl
  have hhi : cfgC8.normal_range.max_ratio = (21 : ℚ)/20 := rfl
  constructor
  · have h1 : (47500 : ℚ) ≤ (g.uniform 50000 70000).1 *
        (((g.uniform 50000 70000).2.choice (salaryBands cfgC8)
          cfgC8.normal_range).2.uniform cfgC8.normal_range.min_ratio
          cfgC8.normal_range.max_ratio).1 := by
      nlinarith [hbase.1, hbase.2, hratio.1, hratio.2]
    have h2 : roundTo 2 (47500 : ℚ) = 47500 := by
      norm_num [roundTo, round_ofNat]
    calc (47500 : ℚ) = roundTo 2 47500 := h2.symm
      _ ≤ _ := roundTo_mono 2 h1
  · have h1 : (g.uniform 50000 70000).1 *
        (((g.uniform 50000 70000).2.choice (salaryBands cfgC8)
          cfgC8.normal_range).2.uniform cfgC8.normal_range.min_ratio
          cfgC8.normal_range.max_ratio).1 ≤ 73500 := by
      nlinarith [hbase.1, hbase.2, hratio.1, hratio.2]
    have h2 : roundTo 2 (73500 : ℚ) = 73500 := by
      norm_num [roundTo, round_ofNat]
    calc roundTo 2 _ ≤ roundTo 2 73500 := roundTo_mono 2 h1
      _ = 73500 := h2

/-- **C8 (amended)**: at the scenario-example configuration every run of
`EmploymentDataGenerator.generate(5)` returns 5 records, all with industry
`"Tech"`, level `"entry"`, not fraudulent, and salary in `[47500, 73500]`
(the code draws the base salary uniformly inside the parsed range before
applying the band ratio; the claim's interval `[54150, 63000]` does not
bound it). -/
theorem scenario_c8_amended (gE gF : Rng) :
    (employmentGenerate cfgC8 5 gE gF).1.length = 5 ∧
    ∀ r ∈ (employmentGenerate cfgC8 5 gE gF).1,
      r.base.industry = "Tech" ∧ r.base.experience_level = "entry" ∧
      r.is_fraudulent = false ∧ r.fraud_type = some "none" ∧
      47500 ≤ r.base.salary ∧ r.base.salary ≤ 73500 := by
  constructor
  · simp only [employmentGenerate, addFraudIndicators]
    rw [setFraudList_length, addSalaryData_length, List.length_zip]
    simp [drawN_length]
  · intro r hr
    simp only [employmentGenerate, addFraudIndicators] at hr
    have hmask : ∀ m ∈ ((drawN Rng.next
        (addSalaryData cfgC8
          (((drawN (fun g => g.choiceUniform (industryNames cfgC8) "") 5 gE).1).zip
            ((drawN (fun g => g.choice (levelProbs cfgC8) "") 5
              (drawN (fun g => g.choiceUniform (industryNames cfgC8) "") 5 gE).2).1))
          (drawN (fun g => g.choice (levelProbs cfgC8) "") 5
            (drawN (fun g => g.choiceUniform (industryNames cfgC8) "") 5 gE).2).2).1.length
        gF).1).map fun u => decide (u < cfgC8.fraud_probability), m = false := by
      intro m hm
      simp only [List.mem_map] at hm
      obtain ⟨u, hu, rfl⟩ := hm
      obtain ⟨g1, rfl⟩ := drawN_mem hu
      simp only [decide_eq_false_iff_not, not_lt]
      exact le_trans (by norm_num [cfgC8]) g1.next_nonneg
    obtain ⟨r0, hr0, rfl⟩ := setFraudList_mem_nofraud hmask hr
    obtain ⟨p, hp, g1, rfl⟩ := addSalaryData_mem hr0
    obtain ⟨pi, pl⟩ := p
    obtain ⟨hpi, hpl⟩ := List.of_mem_zip hp
    obtain ⟨g2, rfl⟩ := drawN_mem hpi
    obtain ⟨g3, rfl⟩ := drawN_mem hpl
    have hind : (g2.choiceUniform (industryNames cfgC8) "").1 = "Tech" :=
      choiceUniform_singleton g2 "Tech" ""
    have hlvl : (g3.choice (levelProbs cfgC8) "").1 = "entry" := by
      unfold Rng.choice
      dsimp only
      exact pickCum_head_one _ _ _ g3.next_lt_one
    refine ⟨hind, hlvl, rfl, rfl, ?_, ?_⟩
    · have := (drawSalaryC8_bounds g1).1
      dsimp only
      rw [hind, hlvl]
      exact this
    · have := (drawSalaryC8_bounds g1).2
      dsimp only
      rw [hind, hlvl]
      exact this

/-- Employment stream for the C8 counterexample: five industry draws, five
level draws, then for the first row base draw `19/20` (base = 69000), band
draw `0` (normal) and ratio draw `9/10` (ratio = 1.04). -/
def gEmpC8 : Rng := streamOf [0, 0, 0, 0, 0, 0, 0, 0, 0, 0, 19/20, 0, 9/10]

/-- First record of that run: salary `round(69000 · 1.04, 2) = 71760`. -/
def c8Rec : EmpRecF := ⟨⟨"Tech", "entry", 71760, 71760⟩, false, some "none"⟩

/-- Remaining records of that run (all stream values 0): salary
`round(50000 · 0.95, 2) = 47500`. -/
def c8Rec2 : EmpRecF := ⟨⟨"Tech", "entry", 47500, 47500⟩, false, some "none"⟩

set_option maxHeartbeats 2000000 in
lemma c8_run : (employmentGenerate cfgC8 5 gEmpC8 gNoFraudW).1 =
    [c8Rec, c8Rec2, c8Rec2, c8Rec2, c8Rec2] := by
  norm_num [c8Rec, c8Rec2, employmentGenerate, drawN, addSalaryData, drawSalary,
    salaryRangeOf, lookupQQ, cfgC8, gEmpC8, gNoFraudW, streamOf, Rng.next, Rng.uniform,
    Rng.choice, Rng.choiceUniform, pickCum, salaryBands, levelProbs, industryNames,
    addFraudIndicators, setFraudList, normProbs, roundTo, round_ofNat, round_zero,
    round_one, Int.floor_zero, floor_unit, fract_unit]

/-- **Counterexample to C8**: at the scenario configuration a run can
produce `salary = 71760`, outside the claimed interval `[54150, 63000]` —
the code draws the base salary uniformly in `[50000, 70000]`, so salaries
range over `[47500, 73500]`, not `[54150, 63000]`. -/
theorem scenario_c8_counterexample :
    (employmentGenerate cfgC8 5 gEmpC8 gNoFraudW).1 =
      [c8Rec, c8Rec2, c8Rec2, c8Rec2, c8Rec2] ∧
    c8Rec.base.salary = 71760 ∧
    ¬ (54150 ≤ c8Rec.base.salary ∧ c8Rec.base.salary ≤ 63000) :=
  ⟨c8_run, rfl, by norm_num [c8Rec]⟩

/-! ## Claim C9: validation behaviour on rule violations -/

/-- A row whose allocation sums to 0.9. -/
def badRow : CInvRec := ⟨50000, 1/2, 1/5, 1/10, 1/10, 50000, 0, 0⟩

/-- A dataset with every required column present but a violated
allocation-sum rule. -/
def badFrame : CFrame := ⟨invRequiredColumns, [badRow]⟩

/-- **Counterexample to C9**: a post-generation violation of the
allocation-sum rule makes `InvestmentGenerator.validate` return the boolean
`False` — no `ValidationError` is raised and no offending row indices are
reported by that code path. -/
theorem validation_counterexample :
    invValidate (some badFrame) = false ∧
    npIsClose (1/10000) (badRow.stocks + badRow.bonds + badRow.cash + badRow.real_estate)
      1 = false := by
  constructor
  · norm_num [invValidate, badFrame, badRow, npIsClose, lt_abs]
  · norm_num [badRow, npIsClose, lt_abs]

/-- **C9 (amended)**: `InvestmentGenerator.validate` returns `true` exactly
when all its rules pass and `false` otherwise (never raising); only
`DataFrameValidationStrategy.validate` raises `ValidationError`, and only
for a missing required column (details = the missing column names, no row
indices) or a dtype mismatch. -/
theorem validation_amended :
    (∀ f : CFrame, invValidate (some f) = true ↔
      ((∀ c ∈ invRequiredColumns, f.columns.contains c = true) ∧
       (∀ r ∈ f.rows,
         npIsClose (1/10000) (r.stocks + r.bonds + r.cash + r.real_estate) 1 = true) ∧
       (∀ r ∈ f.rows, r.reported_income ≤ r.salary) ∧
       (∀ r ∈ f.rows, r.true_deductions ≤ r.reported_deductions))) ∧
    (∀ (required : List String) (ctypes : List (String × String)) (f : PandasFrame),
      (∃ c ∈ required, f.columns.contains c = false) →
      dfvsValidate required ctypes f =
        .error ⟨"Missing required columns",
          [("missing_columns", required.filter fun c => ¬ f.columns.contains c)]⟩) := by
  constructor
  · intro f
    simp [invValidate, List.all_eq_true, ge_iff_le, and_assoc]
  · intro req ctypes f hc
    obtain ⟨c, hcr, hcf⟩ := hc
    have hmem : c ∈ req.filter fun c => ¬ f.columns.contains c :=
      List.mem_filter.mpr ⟨hcr, by simpa using hcf⟩
    unfold dfvsValidate
    rw [if_pos (List.ne_nil_of_mem hmem)]

/-- A row satisfying every rule. -/
def goodRow : CInvRec := ⟨50000, 3/5, 1/5, 1/10, 1/10, 50000, 100, 50⟩

/-- A dataset passing all rules. -/
def goodFrame : CFrame := ⟨invRequiredColumns, [goodRow]⟩

/-- Witness for the amended C9: `validate` returns `true` on a dataset where
all rules pass. -/
theorem validation_amended_witness : invValidate (some goodFrame) = true :=
  (validation_amended.1 goodFrame).mpr
    ⟨by decide,
     by intro r hr; simp only [goodFrame, List.mem_singleton] at hr; subst hr
        norm_num [goodRow, npIsClose],
     by intro r hr; simp only [goodFrame, List.mem_singleton] at hr; subst hr
        norm_num [goodRow],
     by intro r hr; simp only [goodFrame, List.mem_singleton] at hr; subst hr
        norm_num [goodRow]⟩

end RfbPoc
